import Mathlib

set_option maxHeartbeats 1000000
set_option maxRecDepth 10000

/-
Shallow embedding of the AXWEmulator core (discrete-event emulation kernel)
and its CHIP-8 / SUPER-CHIP backend, translated from the Rust sources:

  src/core/src/error.rs          - error kinds
  src/core/src/backend/memory.rs - MemoryBlock, BusMount, Bus
  src/core/src/backend/component.rs - Addressable helpers (read_u8 etc.)
  src/core/src/backend/mod.rs    - Backend scheduler (step / run_until / run_for)
  src/backends/chip8/src/lib.rs  - create_chip8_backend, memory map, font set
  src/backends/chip8/src/input.rs - InputButton, KeypadState
  src/backends/chip8/src/cpu.rs  - CpuState, CpuQuirks, Instruction, execute, step

Modelling conventions:
  - Rust u8/u16/usize values are Nat; wrapping u8/u16 arithmetic is explicit
    `% 256` / `% 65536` (release-build wrapping semantics).
  - Fallible Rust methods (`Result<_, Error>`) become `Except EmuFail _`.
    A Rust panic (slice index out of bounds, `unwrap` of `None`/`Err`) is the
    distinguished failure `EmuFail.rustPanic`.
  - The `String` payloads of `Error` are diagnostics and are not modelled;
    only the `EmulatorErrorKind` is kept.
  - `femtos::Instant` / `femtos::Duration` are Nat counts of femtoseconds;
    `Duration::from_nanos(n)` is `n * 1000000`.
-/

/-- src/core/src/error.rs: `EmulatorErrorKind`. -/
inductive EmulatorErrorKind where
  | MemoryAccessOutOfBounds
  | MemoryAccessReadOnly
  | UnknownOpcode
  | Misc
deriving DecidableEq

/-- Failure of a Rust call: a Rust panic (out-of-bounds index, failed
`unwrap`), or an emulator `Error` carrying its kind. -/
inductive EmuFail where
  | rustPanic
  | emulator (kind : EmulatorErrorKind)
deriving DecidableEq

/-- src/core/src/backend/memory.rs: `MemoryBlock { read_only: bool, data: Vec<u8> }`.
Bytes are Nats; blocks produced by the emulator hold values < 256. -/
structure MemoryBlock where
  read_only : Bool
  data : List Nat
deriving DecidableEq

/-- `impl From<Vec<u8>> for MemoryBlock`: wraps the bytes, `read_only` defaults
to false. -/
def MemoryBlock.fromVec (value : List Nat) : MemoryBlock :=
  { read_only := false, data := value }

/-- `MemoryBlock::size` (the `Addressable` impl): length of `data`. -/
def MemoryBlock.size (m : MemoryBlock) : Nat := m.data.length

/-- `MemoryBlock::resize(size)`, i.e. `Vec::resize(size, 0)`: truncates to
`size` elements, or pads with zero bytes up to `size`. -/
def MemoryBlock.resize (m : MemoryBlock) (size : Nat) : MemoryBlock :=
  { m with data := m.data.take size ++ List.replicate (size - m.data.length) 0 }

/-- `MemoryBlock::set_read_only`. -/
def MemoryBlock.setReadOnly (m : MemoryBlock) : MemoryBlock :=
  { m with read_only := true }

/-- `MemoryBlock::read(address, buffer)`: fails with `MemoryAccessOutOfBounds`
when `address + buffer.len() > size()`, otherwise yields the `len` bytes
`data[address..address+len]`.  The Rust method takes `&self`, so it never
mutates the block. -/
def MemoryBlock.read (m : MemoryBlock) (address len : Nat) :
    Except EmuFail (List Nat) :=
  if address + len > m.size then
    .error (.emulator .MemoryAccessOutOfBounds)
  else
    .ok ((m.data.drop address).take len)

/-- `MemoryBlock::write(address, buffer)`: fails with `MemoryAccessReadOnly`
when the read-only flag is set (this check comes first in the source), then
with `MemoryAccessOutOfBounds` when `address + buffer.len() > size()`;
otherwise overwrites `data[address..address+len]` with the buffer.  The Rust
method returns before mutating on either error path. -/
def MemoryBlock.write (m : MemoryBlock) (address : Nat) (buffer : List Nat) :
    Except EmuFail MemoryBlock :=
  if m.read_only then
    .error (.emulator .MemoryAccessReadOnly)
  else if address + buffer.length > m.size then
    .error (.emulator .MemoryAccessOutOfBounds)
  else
    .ok { m with
          data := m.data.take address ++ buffer ++ m.data.drop (address + buffer.length) }

/-- The `&mut self` view of `MemoryBlock::write`: Rust mutates the receiver
only on the `Ok` path, so after a failing call the caller still observes the
original block. -/
def MemoryBlock.writeMut (m : MemoryBlock) (address : Nat) (buffer : List Nat) :
    MemoryBlock × Option EmuFail :=
  match m.write address buffer with
  | .ok m2 => (m2, none)
  | .error e => (m, some e)

/-- Names of the five components `create_chip8_backend` registers.  The source
identifies components by reference-counted handles with unique ids; the CHIP-8
backend only ever creates these five. -/
inductive CompName where
  | memInterpreter
  | memRam
  | timer
  | cpu
  | audioGen
deriving DecidableEq

/-- src/core/src/backend/memory.rs: `BusMount { base, size, component }`.
`size` is captured from the component's `size()` at insertion.  The component
handle is modelled by its name plus its MemoryBlock state (only memory blocks
are ever mounted by the CHIP-8 backend). -/
structure BusMount where
  base : Nat
  size : Nat
  name : CompName
  block : MemoryBlock
deriving DecidableEq

/-- `BusMount::contains(address)`: `base <= address && address < base + size`. -/
def BusMount.containsAddr (m : BusMount) (address : Nat) : Bool :=
  decide (m.base ≤ address) && decide (address < m.base + m.size)

/-- src/core/src/backend/memory.rs: `Bus { mounts: Vec<BusMount> }`, kept
sorted by base by `insert`. -/
abbrev Bus := List BusMount

/-- The linear scan inside `Bus::get_component_at`: position of the first
mount (in list order) containing both `address` and `address + size - 1`,
together with the relative address `address - base`. -/
def findMount (address size : Nat) : Bus → Option (Nat × Nat)
  | [] => none
  | m :: rest =>
    if m.containsAddr address && m.containsAddr (address + size - 1) then
      some (0, address - m.base)
    else
      (findMount address size rest).map (fun p => (p.1 + 1, p.2))

/-- `Bus::get_component_at(address, size)`: `Misc` error when `size == 0` or
when no single mount covers the whole range. -/
def getComponentAt (bus : Bus) (address size : Nat) : Except EmuFail (Nat × Nat) :=
  if size > 0 then
    match findMount address size bus with
    | some p => .ok p
    | none => .error (.emulator .Misc)
  else .error (.emulator .Misc)

/-- `Bus::read`: dispatch through `get_component_at` and read from the mounted
component at the relative address. -/
def busRead (bus : Bus) (address len : Nat) : Except EmuFail (List Nat) := do
  let p ← getComponentAt bus address len
  match bus.get? p.1 with
  | some m => m.block.read p.2 len
  | none => .error .rustPanic

/-- `Bus::write`: dispatch through `get_component_at` and write to the mounted
component at the relative address, producing the updated bus. -/
def busWrite (bus : Bus) (address : Nat) (buffer : List Nat) : Except EmuFail Bus := do
  let p ← getComponentAt bus address buffer.length
  match bus.get? p.1 with
  | some m => do
    let b2 ← m.block.write p.2 buffer
    .ok (bus.set p.1 { m with block := b2 })
  | none => .error .rustPanic

/-- `Addressable::read_u8`: one-byte buffer read.  The Rust buffer is a fixed
`[u8; 1]`, so on success the returned list has exactly one element. -/
def busReadU8 (bus : Bus) (address : Nat) : Except EmuFail Nat := do
  let bytes ← busRead bus address 1
  .ok (bytes.getD 0 0)

/-- `Addressable::read_u16_be`: two-byte buffer read, big-endian assembly. -/
def busReadU16be (bus : Bus) (address : Nat) : Except EmuFail Nat := do
  let bytes ← busRead bus address 2
  .ok (bytes.getD 0 0 * 256 + bytes.getD 1 0)

/-- `Addressable::write_u8`. -/
def busWriteU8 (bus : Bus) (address value : Nat) : Except EmuFail Bus :=
  busWrite bus address [value]

/-- src/backends/chip8/src/lib.rs: address constants. -/
def TIMER_BASE : Nat := 0x100

def DT_TIMER : Nat := TIMER_BASE

def ST_TIMER : Nat := TIMER_BASE + 1

def FONT_BASE : Nat := 0x50

/-- src/backends/chip8/src/lib.rs: `FONT_SET`, 16 glyphs of 5 bytes. -/
def FONT_SET : List Nat :=
  [0xF0, 0x90, 0x90, 0x90, 0xF0,
   0x20, 0x60, 0x20, 0x20, 0x70,
   0xF0, 0x10, 0xF0, 0x80, 0xF0,
   0xF0, 0x10, 0xF0, 0x10, 0xF0,
   0x90, 0x90, 0xF0, 0x10, 0x10,
   0xF0, 0x80, 0xF0, 0x10, 0xF0,
   0xF0, 0x80, 0xF0, 0x90, 0xF0,
   0xF0, 0x10, 0x20, 0x40, 0x40,
   0xF0, 0x90, 0xF0, 0x90, 0xF0,
   0xF0, 0x90, 0xF0, 0x10, 0xF0,
   0xF0, 0x90, 0xF0, 0x90, 0x90,
   0xE0, 0x90, 0xE0, 0x90, 0xE0,
   0xF0, 0x80, 0x80, 0x80, 0xF0,
   0xE0, 0x90, 0x90, 0x90, 0xE0,
   0xF0, 0x80, 0xF0, 0x80, 0xF0,
   0xF0, 0x80, 0xF0, 0x80, 0x80]

/-- The RAM block built by `create_chip8_backend`:
`let mut ram: MemoryBlock = options.rom_data.into(); ram.resize(0xFFF - 0x200);`. -/
def chip8Ram (rom_data : List Nat) : MemoryBlock :=
  (MemoryBlock.fromVec rom_data).resize (0xFFF - 0x200)

/-- The bus-and-component assembly of `create_chip8_backend`
(src/backends/chip8/src/lib.rs lines 58-90).  Channel plumbing and frontend
registration move no memory and are omitted; the fallible memory operations
modelled are exactly the `Addressable` calls the source makes.  `insert` keeps
mounts sorted by base; insertion order 0x0 then 0x200 is already sorted.
The timer, cpu and audio generator are registered through `add_component`
only, which never mounts anything on the bus. -/
def createChip8 (rom_data : List Nat) : Except EmuFail (Bus × List CompName) := do
  let interpreter_memory := (MemoryBlock.fromVec []).resize 0x200
  let interpreter_memory ← interpreter_memory.write FONT_BASE FONT_SET
  let bus : Bus := [⟨0x0, interpreter_memory.size, .memInterpreter, interpreter_memory⟩]
  let ram := chip8Ram rom_data
  let bus := bus ++ [⟨0x200, ram.size, .memRam, ram⟩]
  let components := [CompName.memInterpreter, .memRam, .timer, .cpu, .audioGen]
  .ok (bus, components)

/-- The interpreter memory block after the font set is written: 0x200 zero
bytes overwritten with `FONT_SET` at 0x50. -/
def interpBlock : MemoryBlock :=
  { read_only := false,
    data := List.replicate 0x50 0 ++ FONT_SET ++ List.replicate 0x160 0 }

/-- `createChip8` evaluated: the font write succeeds and the resulting bus has
exactly the interpreter mount at 0x0 and the RAM mount at 0x200. -/
theorem createChip8_eq (rom_data : List Nat) :
    createChip8 rom_data =
      .ok ([⟨0x0, 0x200, CompName.memInterpreter, interpBlock⟩,
            ⟨0x200, (chip8Ram rom_data).size, CompName.memRam, chip8Ram rom_data⟩],
           [CompName.memInterpreter, .memRam, .timer, .cpu, .audioGen]) := by
  rfl

/-- Name of the component a bus access at `(address, len)` dispatches to. -/
def mountNameAt (bus : Bus) (address len : Nat) : Option CompName :=
  match getComponentAt bus address len with
  | .ok p => (bus.get? p.1).map BusMount.name
  | .error _ => none

/-- The bus built by `create_chip8_backend` for the empty ROM. -/
def chip8BusNil : Bus :=
  [⟨0x0, 0x200, CompName.memInterpreter, interpBlock⟩,
   ⟨0x200, (chip8Ram []).size, CompName.memRam, chip8Ram []⟩]

/-- C3 counterexample: on the bus actually built by `create_chip8_backend`,
reads and writes at 0x100..=0x101 dispatch to the interpreter memory block,
not to the Timer, and no bus mount is the Timer at all (the timer is added via
`add_component`, which performs no bus insertion, and `Timer` has no
`as_addressable`). -/
theorem claim_C3_counterexample :
    createChip8 [] =
      .ok (chip8BusNil, [CompName.memInterpreter, .memRam, .timer, .cpu, .audioGen])
    ∧ mountNameAt chip8BusNil 0x100 1 = some CompName.memInterpreter
    ∧ mountNameAt chip8BusNil 0x101 1 = some CompName.memInterpreter
    ∧ CompName.memInterpreter ≠ CompName.timer
    ∧ (∀ m ∈ chip8BusNil, m.name ≠ CompName.timer) := by
  refine ⟨rfl, rfl, rfl, by decide, ?_⟩
  intro m hm
  simp only [chip8BusNil, List.mem_cons, List.not_mem_nil, or_false] at hm
  rcases hm with rfl | rfl <;> decide

/-- C3 amended: in the backend returned by `create_chip8_backend`, the DT byte
at 0x100 and the ST byte at 0x101 are held by the interpreter memory block
mounted at 0x0 (size 0x200): bus accesses in 0x100..=0x101 dispatch to that
memory block, and the Timer component is never mounted on the bus. -/
theorem claim_C3 (rom_data : List Nat) (bus : Bus) (comps : List CompName)
    (h : createChip8 rom_data = .ok (bus, comps)) :
    mountNameAt bus 0x100 1 = some CompName.memInterpreter ∧
    mountNameAt bus 0x101 1 = some CompName.memInterpreter ∧
    ∀ m ∈ bus, m.name ≠ CompName.timer := by
  rw [createChip8_eq] at h
  simp only [Except.ok.injEq, Prod.mk.injEq] at h
  obtain ⟨hb, _⟩ := h
  subst hb
  refine ⟨rfl, rfl, ?_⟩
  intro m hm
  simp only [List.mem_cons, List.not_mem_nil, or_false] at hm
  rcases hm with rfl | rfl
  · exact (by decide : CompName.memInterpreter ≠ CompName.timer)
  · exact (by decide : CompName.memRam ≠ CompName.timer)

/-- Witness for C3 at the concrete empty-ROM backend. -/
theorem claim_C3_witness :
    mountNameAt chip8BusNil 0x100 1 = some CompName.memInterpreter ∧
    mountNameAt chip8BusNil 0x101 1 = some CompName.memInterpreter ∧
    ∀ m ∈ chip8BusNil, m.name ≠ CompName.timer :=
  claim_C3 [] chip8BusNil
    [CompName.memInterpreter, .memRam, .timer, .cpu, .audioGen] rfl

/-- C9 counterexample: an out-of-bounds write to a read-only block fails with
`MemoryAccessReadOnly`, not `MemoryAccessOutOfBounds` (the read-only check
precedes the bounds check in `MemoryBlock::write`), so the claim that writes
fail with `MemoryAccessOutOfBounds` whenever `address + len > size` is false
as stated. -/
theorem claim_C9_counterexample :
    0 + 1 > MemoryBlock.size ⟨true, []⟩
    ∧ MemoryBlock.write ⟨true, []⟩ 0 [1] = .error (.emulator .MemoryAccessReadOnly)
    ∧ EmulatorErrorKind.MemoryAccessReadOnly ≠ EmulatorErrorKind.MemoryAccessOutOfBounds := by
  refine ⟨by decide, rfl, by decide⟩

/-- C9 amended: `MemoryBlock::read` fails with `MemoryAccessOutOfBounds`
whenever `address + len > size()`; `MemoryBlock::write` on a read-only block
fails with `MemoryAccessReadOnly` (this check takes precedence over the bounds
check); `write` on a non-read-only block fails with `MemoryAccessOutOfBounds`
whenever `address + len > size()`; and a failing write leaves the block
unchanged (`read` takes `&self` and never mutates). -/
theorem claim_C9 (m : MemoryBlock) (address len : Nat) (buffer : List Nat) :
    (address + len > m.size →
       m.read address len = .error (.emulator .MemoryAccessOutOfBounds))
    ∧ (m.read_only = true →
       m.write address buffer = .error (.emulator .MemoryAccessReadOnly))
    ∧ (m.read_only = false → address + buffer.length > m.size →
       m.write address buffer = .error (.emulator .MemoryAccessOutOfBounds))
    ∧ (∀ e, (m.writeMut address buffer).2 = some e →
       (m.writeMut address buffer).1 = m) := by
  refine ⟨?_, ?_, ?_, ?_⟩
  · intro h
    simp [MemoryBlock.read, h]
  · intro h
    simp [MemoryBlock.write, h]
  · intro h1 h2
    simp [MemoryBlock.write, h1, h2]
  · intro e
    unfold MemoryBlock.writeMut
    cases hw : m.write address buffer <;> simp

/-- Witness for C9 on concrete blocks. -/
theorem claim_C9_witness :
    MemoryBlock.read ⟨false, [0]⟩ 1 1 = .error (.emulator .MemoryAccessOutOfBounds)
    ∧ MemoryBlock.write ⟨true, [0]⟩ 0 [5] = .error (.emulator .MemoryAccessReadOnly)
    ∧ MemoryBlock.write ⟨false, [0]⟩ 1 [5] = .error (.emulator .MemoryAccessOutOfBounds)
    ∧ (MemoryBlock.writeMut ⟨true, [0]⟩ 0 [5]).1 = ⟨true, [0]⟩ :=
  ⟨(claim_C9 ⟨false, [0]⟩ 1 1 [5]).1 (by decide),
   (claim_C9 ⟨true, [0]⟩ 0 0 [5]).2.1 rfl,
   (claim_C9 ⟨false, [0]⟩ 1 0 [5]).2.2.1 rfl (by decide),
   (claim_C9 ⟨true, [0]⟩ 0 0 [5]).2.2.2 (.emulator .MemoryAccessReadOnly) rfl⟩

/-- C10: `create_chip8_backend` never rejects an oversized ROM.  For every
`rom_data` the memory assembly succeeds, the RAM component is mounted at 0x200
with size exactly 0xDFF, and its contents are the first
`min (rom_data.length) 0xDFF` bytes of the ROM followed by zero padding
(bytes beyond 0xDFF are silently dropped by `Vec::resize`). -/
theorem claim_C10 (rom_data : List Nat) :
    createChip8 rom_data =
      .ok ([⟨0x0, 0x200, CompName.memInterpreter, interpBlock⟩,
            ⟨0x200, (chip8Ram rom_data).size, CompName.memRam, chip8Ram rom_data⟩],
           [CompName.memInterpreter, .memRam, .timer, .cpu, .audioGen])
    ∧ (chip8Ram rom_data).size = 0xDFF
    ∧ (chip8Ram rom_data).data
        = rom_data.take 0xDFF ++ List.replicate (0xDFF - rom_data.length) 0
    ∧ (chip8Ram rom_data).read_only = false := by
  refine ⟨createChip8_eq rom_data, ?_, rfl, rfl⟩
  show (rom_data.take 0xDFF ++ List.replicate (0xDFF - rom_data.length) 0).length = 0xDFF
  simp only [List.length_append, List.length_take, List.length_replicate]
  omega

/-- Witness for C10 at a concrete oversized ROM (0x1000 bytes, above the
0xDFF capacity). -/
theorem claim_C10_witness :
    (chip8Ram (List.replicate 0x1000 7)).size = 0xDFF
    ∧ (chip8Ram (List.replicate 0x1000 7)).data
        = (List.replicate 0x1000 7).take 0xDFF
          ++ List.replicate (0xDFF - (List.replicate 0x1000 7).length) 0 :=
  ⟨(claim_C10 (List.replicate 0x1000 7)).2.1,
   (claim_C10 (List.replicate 0x1000 7)).2.2.1⟩

/-- src/core/src/frontend/input.rs: `ButtonState`. -/
inductive ButtonState where
  | Pressed
  | Released
deriving DecidableEq

/-- src/core/src/frontend/input.rs: `KeyboardEventKey` (A..Z, Number0..9). -/
inductive KeyboardEventKey where
  | A | B | C | D | E | F | G | H | I | J | K | L | M
  | N | O | P | Q | R | S | T | U | V | W | X | Y | Z
  | Number0 | Number1 | Number2 | Number3 | Number4
  | Number5 | Number6 | Number7 | Number8 | Number9
deriving DecidableEq

/-- src/core/src/frontend/input.rs: `InputEvent`. -/
inductive InputEvent where
  | keyboard (key : KeyboardEventKey) (state : ButtonState)
deriving DecidableEq

/-- src/backends/chip8/src/input.rs: `impl TryFrom<u8> for InputButton`.
Buttons are modelled by their numeric value 0..=15 (which is exactly what
`impl From<InputButton> for u8` recovers); values above 15 yield `Err(())`. -/
def InputButton.tryFromU8 (value : Nat) : Option Nat :=
  if value < 16 then some value else none

/-- src/backends/chip8/src/input.rs: `impl TryFrom<KeyboardEventKey> for
InputButton`, the QWERTY key-to-hex-button mapping. -/
def InputButton.tryFromKey (key : KeyboardEventKey) : Option Nat :=
  match key with
  | .Number1 => some 0x1
  | .Number2 => some 0x2
  | .Number3 => some 0x3
  | .Number4 => some 0xC
  | .Q => some 0x4
  | .W => some 0x5
  | .E => some 0x6
  | .R => some 0xD
  | .A => some 0x7
  | .S => some 0x8
  | .D => some 0x9
  | .F => some 0xE
  | .Y => some 0xA
  | .X => some 0x0
  | .C => some 0xB
  | .V => some 0xF
  | _ => none

/-- src/backends/chip8/src/input.rs: `KeypadState` is a HashMap from buttons
to states whose lookup defaults to `Released`; modelled as a total function
from button values. -/
def KeypadState := Nat → ButtonState

/-- `KeypadState::new`: empty map, every lookup defaults to `Released`. -/
def KeypadState.new : KeypadState := fun _ => .Released

/-- `KeypadState::parse_input_event`: if the key maps to a hex button, record
that button's state (insert-or-assign). -/
def KeypadState.parseInputEvent (kp : KeypadState) (ev : InputEvent) : KeypadState :=
  match ev with
  | .keyboard key state =>
    match InputButton.tryFromKey key with
    | some button => fun b => if b = button then state else kp b
    | none => kp

/-- `KeypadState::get_state_for_button`. -/
def KeypadState.getStateForButton (kp : KeypadState) (button : Nat) : ButtonState :=
  kp button

/-- src/backends/chip8/src/cpu.rs: `CpuQuirks` (field names as in source). -/
structure CpuQuirks where
  quirks_shift_takes_x_instead_of_y : Bool
  quirks_loadstore_leaves_i_unmodified : Bool
  quirks_loadstore_modifies_i_one_less : Bool
  quirks_jump_uses_x : Bool
  quirks_draw_not_waiting_for_vblank : Bool
  quirks_logic_leaves_flag_unmodified : Bool
deriving DecidableEq

/-- src/backends/chip8/src/lib.rs: `Platform`. -/
inductive Platform where
  | Chip8
  | SuperChip
deriving DecidableEq

/-- `impl From<Platform> for CpuQuirks` (src/backends/chip8/src/cpu.rs
lines 35-56). -/
def CpuQuirks.fromPlatform : Platform → CpuQuirks
  | .Chip8 =>
    { quirks_shift_takes_x_instead_of_y := false
      quirks_loadstore_leaves_i_unmodified := false
      quirks_loadstore_modifies_i_one_less := false
      quirks_jump_uses_x := false
      quirks_draw_not_waiting_for_vblank := false
      quirks_logic_leaves_flag_unmodified := false }
  | .SuperChip =>
    { quirks_shift_takes_x_instead_of_y := true
      quirks_loadstore_leaves_i_unmodified := true
      quirks_loadstore_modifies_i_one_less := false
      quirks_jump_uses_x := true
      quirks_draw_not_waiting_for_vblank := true
      quirks_logic_leaves_flag_unmodified := true }

/-- src/backends/chip8/src/cpu.rs: frame dimensions (64, 32). -/
def FRAME_WIDTH : Nat := 64

def FRAME_HEIGHT : Nat := 32

/-- `CLOCK_SPEED_NS = 1_000_000_000 / 700` (integer division). -/
def CLOCK_SPEED_NS : Nat := 1000000000 / 700

/-- `VBLANK_CLOCK_SPEED_NS = 1_000_000_000 / 60` (integer division). -/
def VBLANK_CLOCK_SPEED_NS : Nat := 1000000000 / 60

/-- femtos: `Duration::from_nanos(n)` in femtoseconds. -/
def durationFromNanos (n : Nat) : Nat := n * 1000000

/-- The VBlank period as a femtosecond count,
`Duration::from_nanos(VBLANK_CLOCK_SPEED_NS)`. -/
def VBLANK_PERIOD_FS : Nat := durationFromNanos VBLANK_CLOCK_SPEED_NS

/-- src/backends/chip8/src/cpu.rs: `CpuState`.  `v` and `stack` are the
16-entry register file and call stack; `frame_buffer` maps the flat index
`y * 64 + x` to the pixel state.  Well-formed states (all states the emulator
constructs) have `v.length = 16`, `stack.length = 16`, bytes < 256 and 16-bit
fields < 65536. -/
structure CpuState where
  v : List Nat
  i : Nat
  pc : Nat
  sp : Nat
  stack : List Nat
  paused : Bool
  waiting_for_key : Option Nat
  waiting_for_vblank : Bool
  frame_buffer : Nat → Bool
  keypad_state : KeypadState

/-- `CpuState::new` / `Default`: everything zeroed except `pc = 0x200`. -/
def CpuState.new : CpuState :=
  { v := List.replicate 16 0
    i := 0
    pc := 0x200
    sp := 0
    stack := List.replicate 16 0
    paused := false
    waiting_for_key := none
    waiting_for_vblank := false
    frame_buffer := fun _ => false
    keypad_state := KeypadState.new }

/-- src/backends/chip8/src/cpu.rs: `Cpu`.  The `input_receiver` channel is
modelled by the list of pending input events (in enqueue order); the
`frame_sender` only emits frames to the frontend and does not affect
CPU or bus state, so it is not modelled. -/
structure Cpu where
  state : CpuState
  quirks : CpuQuirks
  input_queue : List InputEvent

/-- `Cpu::new(platform, ..)`. -/
def Cpu.new (platform : Platform) : Cpu :=
  { state := CpuState.new
    quirks := CpuQuirks.fromPlatform platform
    input_queue := [] }

/-- src/backends/chip8/src/cpu.rs: `Instruction` (operand order as in the
source enum). -/
inductive Instruction where
  | Sys (address : Nat)
  | Cls
  | Return
  | Jump (address : Nat)
  | Call (address : Nat)
  | SkipIfVImmediate (x : Nat) (value : Nat)
  | SkipIfNotVImmediate (x : Nat) (value : Nat)
  | SkipIfCmp (x y : Nat)
  | LoadVImmediate (x : Nat) (value : Nat)
  | AddVImmediate (x : Nat) (value : Nat)
  | LoadV (x y : Nat)
  | Or (x y : Nat)
  | And (x y : Nat)
  | Xor (x y : Nat)
  | Add (x y : Nat)
  | Sub (x y : Nat)
  | ShiftRight (x y : Nat)
  | SubN (x y : Nat)
  | ShiftLeft (x y : Nat)
  | SkipIfNotCmp (x y : Nat)
  | LoadIImmediate (address : Nat)
  | JumpV0 (address : Nat)
  | Random (x : Nat) (value : Nat)
  | Draw (x y n : Nat)
  | SkipIfKey (x : Nat)
  | SkipIfNotKey (x : Nat)
  | LoadVDT (x : Nat)
  | WaitAndLoadKeypress (x : Nat)
  | LoadDTV (x : Nat)
  | LoadSTV (x : Nat)
  | AddIV (x : Nat)
  | LoadFontV (x : Nat)
  | StoreBCDV (x : Nat)
  | StoreAllV (x : Nat)
  | LoadAllV (x : Nat)
  | Unknown (opcode : Nat)
deriving DecidableEq

/-- `impl From<u16> for Instruction` (src/backends/chip8/src/cpu.rs
lines 293-384): nibble-directed decode. -/
def Instruction.decode (value : Nat) : Instruction :=
  match value >>> 12 with
  | 0x0 =>
    match value with
    | 0x00E0 => .Cls
    | 0x00EE => .Return
    | _ => .Sys (value &&& 0x0FFF)
  | 0x1 => .Jump (value &&& 0x0FFF)
  | 0x2 => .Call (value &&& 0x0FFF)
  | 0x3 => .SkipIfVImmediate ((value &&& 0x0F00) >>> 8) (value &&& 0x00FF)
  | 0x4 => .SkipIfNotVImmediate ((value &&& 0x0F00) >>> 8) (value &&& 0x00FF)
  | 0x5 => .SkipIfCmp ((value &&& 0x0F00) >>> 8) ((value &&& 0x00F0) >>> 4)
  | 0x6 => .LoadVImmediate ((value &&& 0x0F00) >>> 8) (value &&& 0x00FF)
  | 0x7 => .AddVImmediate ((value &&& 0x0F00) >>> 8) (value &&& 0x00FF)
  | 0x8 =>
    match value &&& 0xF with
    | 0x0 => .LoadV ((value &&& 0x0F00) >>> 8) ((value &&& 0x00F0) >>> 4)
    | 0x1 => .Or ((value &&& 0x0F00) >>> 8) ((value &&& 0x00F0) >>> 4)
    | 0x2 => .And ((value &&& 0x0F00) >>> 8) ((value &&& 0x00F0) >>> 4)
    | 0x3 => .Xor ((value &&& 0x0F00) >>> 8) ((value &&& 0x00F0) >>> 4)
    | 0x4 => .Add ((value &&& 0x0F00) >>> 8) ((value &&& 0x00F0) >>> 4)
    | 0x5 => .Sub ((value &&& 0x0F00) >>> 8) ((value &&& 0x00F0) >>> 4)
    | 0x6 => .ShiftRight ((value &&& 0x0F00) >>> 8) ((value &&& 0x00F0) >>> 4)
    | 0x7 => .SubN ((value &&& 0x0F00) >>> 8) ((value &&& 0x00F0) >>> 4)
    | 0xE => .ShiftLeft ((value &&& 0x0F00) >>> 8) ((value &&& 0x00F0) >>> 4)
    | _ => .Unknown value
  | 0x9 => .SkipIfNotCmp ((value &&& 0x0F00) >>> 8) ((value &&& 0x00F0) >>> 4)
  | 0xA => .LoadIImmediate (value &&& 0x0FFF)
  | 0xB => .JumpV0 (value &&& 0x0FFF)
  | 0xC => .Random ((value &&& 0x0F00) >>> 8) (value &&& 0x00FF)
  | 0xD => .Draw ((value &&& 0x0F00) >>> 8) ((value &&& 0x00F0) >>> 4) (value &&& 0x000F)
  | 0xE =>
    match value &&& 0xFF with
    | 0x9E => .SkipIfKey ((value &&& 0x0F00) >>> 8)
    | 0xA1 => .SkipIfNotKey ((value &&& 0x0F00) >>> 8)
    | _ => .Unknown value
  | 0xF =>
    match value &&& 0xFF with
    | 0x07 => .LoadVDT ((value &&& 0x0F00) >>> 8)
    | 0x0A => .WaitAndLoadKeypress ((value &&& 0x0F00) >>> 8)
    | 0x15 => .LoadDTV ((value &&& 0x0F00) >>> 8)
    | 0x18 => .LoadSTV ((value &&& 0x0F00) >>> 8)
    | 0x1E => .AddIV ((value &&& 0x0F00) >>> 8)
    | 0x29 => .LoadFontV ((value &&& 0x0F00) >>> 8)
    | 0x33 => .StoreBCDV ((value &&& 0x0F00) >>> 8)
    | 0x55 => .StoreAllV ((value &&& 0x0F00) >>> 8)
    | 0x65 => .LoadAllV ((value &&& 0x0F00) >>> 8)
    | _ => .Unknown value
  | _ => .Unknown value

/-- Rust slice read `l[i]`: panics when the index is out of bounds. -/
def idxGet (l : List Nat) (i : Nat) : Except EmuFail Nat :=
  match l.get? i with
  | some a => .ok a
  | none => .error .rustPanic

/-- Rust slice write `l[i] = a`: panics when the index is out of bounds. -/
def idxSet (l : List Nat) (i a : Nat) : Except EmuFail (List Nat) :=
  if i < l.length then .ok (l.set i a) else .error .rustPanic

/-- u8 wrapping (release-build `+=`, `<<=`, `wrapping_add`). -/
def wrap8 (a : Nat) : Nat := a % 256

/-- u16 wrapping (release-build `+=`, `wrapping_add`). -/
def wrap16 (a : Nat) : Nat := a % 65536

/-- u8 `overflowing_sub` / borrow-aware subtraction: Rust `a.overflowing_sub b`
is `((a + 256 - b) % 256, a < b)` for byte values. -/
def sub8 (a b : Nat) : Nat := (a + 256 - b) % 256

/-- The sprite bit tested and drawn at column `x` of a DRW row byte:
`((pixeldata >> (7 - x)) & 0b1) > 0` (src cpu.rs line 587). -/
def bitAt (pixeldata x : Nat) : Bool := decide (((pixeldata >>> (7 - x)) &&& 1) > 0)

/-- The inner `for x in 0..8` column loop of DRW (src cpu.rs lines 580-594),
including the horizontal break at `start_x + x >= 64`.  `rowBase` is
`(start_y + y) * 64`; `count` counts the columns still to visit, with
`count + x = 8` at every call.  The accumulator carries the frame buffer and
the pending value of `V[F]` (the source writes `v[0xF]` in place; between the
initial `v[0xF] = 0` and the end of the loops no other register is touched,
so accumulating and storing once afterwards is equivalent). -/
def drawCols (pixeldata sx rowBase : Nat) :
    Nat → Nat → ((Nat → Bool) × Nat) → ((Nat → Bool) × Nat)
  | 0, _, acc => acc
  | count + 1, x, (fb, vf) =>
    if 64 ≤ sx + x then (fb, vf)
    else
      let index := rowBase + sx + x
      let current := fb index
      let newPixel : Bool := bitAt pixeldata x
      let fb2 : Nat → Bool := fun j => if j = index then Bool.xor newPixel current else fb j
      let vf2 := if newPixel && current then 1 else vf
      drawCols pixeldata sx rowBase count (x + 1) (fb2, vf2)

/-- The outer `for y in 0..n` row loop of DRW (src cpu.rs lines 573-595):
rows with `start_y + y >= 32` are skipped (`continue`) before the bus read;
otherwise the sprite byte is fetched from the bus at `i + y` (propagating bus
errors) and the column loop runs on it. -/
def drawRows (bus : Bus) (i sx sy : Nat) :
    Nat → Nat → ((Nat → Bool) × Nat) → Except EmuFail ((Nat → Bool) × Nat)
  | 0, _, acc => .ok acc
  | count + 1, y, acc =>
    if 32 ≤ sy + y then
      drawRows bus i sx sy count (y + 1) acc
    else do
      let pixeldata ← busReadU8 bus (i + y)
      drawRows bus i sx sy count (y + 1) (drawCols pixeldata sx ((sy + y) * 64) 8 0 acc)

/-- The `for register in 0..=x` loop of FX55 (StoreAllV): write
`v[register]` to the bus at `i + register`. -/
def storeAllLoop (v : List Nat) (i : Nat) : Nat → Nat → Bus → Except EmuFail Bus
  | 0, _, bus => .ok bus
  | count + 1, r, bus => do
    let vr ← idxGet v r
    let bus2 ← busWriteU8 bus (i + r) vr
    storeAllLoop v i count (r + 1) bus2

/-- The `for register in 0..=x` loop of FX65 (LoadAllV): read the bus at
`i + register` into `v[register]`. -/
def loadAllLoop (bus : Bus) (i : Nat) : Nat → Nat → List Nat → Except EmuFail (List Nat)
  | 0, _, v => .ok v
  | count + 1, r, v => do
    let val ← busReadU8 bus (i + r)
    let v2 ← idxSet v r val
    loadAllLoop bus i count (r + 1) v2

/-- The FX55/FX65 I-update rule (src cpu.rs lines 668-673 / 681-686): when
`quirks_loadstore_leaves_i_unmodified` is false, `i += x` and, when
`quirks_loadstore_modifies_i_one_less` is also false, a further `i += 1`
(u16 arithmetic). -/
def loadstoreIUpdate (q : CpuQuirks) (i x : Nat) : Nat :=
  if q.quirks_loadstore_leaves_i_unmodified then i
  else
    let i2 := wrap16 (i + x)
    if q.quirks_loadstore_modifies_i_one_less then i2 else wrap16 (i2 + 1)

/-- `Instruction::execute` (src/backends/chip8/src/cpu.rs lines 430-694).
`randomByte` supplies the value of `rand::random::<u8>()` used by CXNN.
On the Rust error path the caller keeps the partially mutated state; the
claims below only concern successful executions and the occurrence of
errors/panics, so the embedding returns the error alone. -/
def executeInst (inst : Instruction) (cpu : Cpu) (bus : Bus) (randomByte : Nat) :
    Except EmuFail (Cpu × Bus) :=
  match inst with
  | .Sys address =>
    .ok ({ cpu with state := { cpu.state with pc := wrap16 address } }, bus)
  | .Cls =>
    .ok ({ cpu with state := { cpu.state with frame_buffer := fun _ => false } }, bus)
  | .Return => do
    let sp2 := cpu.state.sp - 1
    let pc2 ← idxGet cpu.state.stack sp2
    .ok ({ cpu with state := { cpu.state with sp := sp2, pc := pc2 } }, bus)
  | .Jump address =>
    .ok ({ cpu with state := { cpu.state with pc := wrap16 address } }, bus)
  | .Call address => do
    let stack2 ← idxSet cpu.state.stack cpu.state.sp cpu.state.pc
    let sp2 := min (cpu.state.sp + 1) 255
    .ok ({ cpu with state :=
           { cpu.state with stack := stack2, sp := sp2, pc := wrap16 address } }, bus)
  | .SkipIfVImmediate x value => do
    let vx ← idxGet cpu.state.v x
    if vx = value then
      .ok ({ cpu with state := { cpu.state with pc := wrap16 (cpu.state.pc + 2) } }, bus)
    else
      .ok (cpu, bus)
  | .SkipIfNotVImmediate x value => do
    let vx ← idxGet cpu.state.v x
    if vx ≠ value then
      .ok ({ cpu with state := { cpu.state with pc := wrap16 (cpu.state.pc + 2) } }, bus)
    else
      .ok (cpu, bus)
  | .SkipIfCmp x y => do
    let vx ← idxGet cpu.state.v x
    let vy ← idxGet cpu.state.v y
    if vx = vy then
      .ok ({ cpu with state := { cpu.state with pc := wrap16 (cpu.state.pc + 2) } }, bus)
    else
      .ok (cpu, bus)
  | .LoadVImmediate x value => do
    let v2 ← idxSet cpu.state.v x value
    .ok ({ cpu with state := { cpu.state with v := v2 } }, bus)
  | .AddVImmediate x value => do
    let vx ← idxGet cpu.state.v x
    let v2 ← idxSet cpu.state.v x (wrap8 (vx + value))
    .ok ({ cpu with state := { cpu.state with v := v2 } }, bus)
  | .LoadV x y => do
    let vy ← idxGet cpu.state.v y
    let v2 ← idxSet cpu.state.v x vy
    .ok ({ cpu with state := { cpu.state with v := v2 } }, bus)
  | .Or x y => do
    let vx ← idxGet cpu.state.v x
    let vy ← idxGet cpu.state.v y
    let v2 ← idxSet cpu.state.v x (vx ||| vy)
    let v3 ← if cpu.quirks.quirks_logic_leaves_flag_unmodified then .ok v2
             else idxSet v2 0xF 0
    .ok ({ cpu with state := { cpu.state with v := v3 } }, bus)
  | .And x y => do
    let vx ← idxGet cpu.state.v x
    let vy ← idxGet cpu.state.v y
    let v2 ← idxSet cpu.state.v x (vx &&& vy)
    let v3 ← if cpu.quirks.quirks_logic_leaves_flag_unmodified then .ok v2
             else idxSet v2 0xF 0
    .ok ({ cpu with state := { cpu.state with v := v3 } }, bus)
  | .Xor x y => do
    let vx ← idxGet cpu.state.v x
    let vy ← idxGet cpu.state.v y
    let v2 ← idxSet cpu.state.v x (vx ^^^ vy)
    let v3 ← if cpu.quirks.quirks_logic_leaves_flag_unmodified then .ok v2
             else idxSet v2 0xF 0
    .ok ({ cpu with state := { cpu.state with v := v3 } }, bus)
  | .Add x y => do
    let vx ← idxGet cpu.state.v x
    let vy ← idxGet cpu.state.v y
    let v2 ← idxSet cpu.state.v x (wrap8 (vx + vy))
    let v3 ← idxSet v2 0xF (if 256 ≤ vx + vy then 1 else 0)
    .ok ({ cpu with state := { cpu.state with v := v3 } }, bus)
  | .Sub x y => do
    let vx ← idxGet cpu.state.v x
    let vy ← idxGet cpu.state.v y
    let v2 ← idxSet cpu.state.v x (sub8 vx vy)
    let v3 ← idxSet v2 0xF (if vx < vy then 0 else 1)
    .ok ({ cpu with state := { cpu.state with v := v3 } }, bus)
  | .ShiftRight x y => do
    let v1 ←
      if cpu.quirks.quirks_shift_takes_x_instead_of_y then .ok cpu.state.v
      else do
        let vy ← idxGet cpu.state.v y
        idxSet cpu.state.v x vy
    let vx ← idxGet v1 x
    let flag := vx &&& 1
    let v2 ← idxSet v1 x (vx >>> 1)
    let v3 ← idxSet v2 0xF flag
    .ok ({ cpu with state := { cpu.state with v := v3 } }, bus)
  | .SubN x y => do
    let vx ← idxGet cpu.state.v x
    let vy ← idxGet cpu.state.v y
    let v2 ← idxSet cpu.state.v x (sub8 vy vx)
    let v3 ← idxSet v2 0xF (if vy < vx then 0 else 1)
    .ok ({ cpu with state := { cpu.state with v := v3 } }, bus)
  | .ShiftLeft x y => do
    let v1 ←
      if cpu.quirks.quirks_shift_takes_x_instead_of_y then .ok cpu.state.v
      else do
        let vy ← idxGet cpu.state.v y
        idxSet cpu.state.v x vy
    let vx ← idxGet v1 x
    let flag := vx &&& 0b10000000
    let v2 ← idxSet v1 x (wrap8 (vx <<< 1))
    let v3 ← idxSet v2 0xF (flag >>> 7)
    .ok ({ cpu with state := { cpu.state with v := v3 } }, bus)
  | .SkipIfNotCmp x y => do
    let vx ← idxGet cpu.state.v x
    let vy ← idxGet cpu.state.v y
    if vx ≠ vy then
      .ok ({ cpu with state := { cpu.state with pc := wrap16 (cpu.state.pc + 2) } }, bus)
    else
      .ok (cpu, bus)
  | .LoadIImmediate address =>
    .ok ({ cpu with state := { cpu.state with i := wrap16 address } }, bus)
  | .JumpV0 address =>
    if cpu.quirks.quirks_jump_uses_x then do
      let register := address &&& 0xF00
      let vr ← idxGet cpu.state.v register
      .ok ({ cpu with state := { cpu.state with pc := wrap16 (vr + address) } }, bus)
    else do
      let v0 ← idxGet cpu.state.v 0x0
      .ok ({ cpu with state := { cpu.state with pc := wrap16 (v0 + address) } }, bus)
  | .Random x value => do
    let v2 ← idxSet cpu.state.v x (randomByte &&& value)
    .ok ({ cpu with state := { cpu.state with v := v2 } }, bus)
  | .Draw vx vy n => do
    let sxv ← idxGet cpu.state.v vx
    let syv ← idxGet cpu.state.v vy
    let start_x := sxv % FRAME_WIDTH
    let start_y := syv % FRAME_HEIGHT
    let v1 ← idxSet cpu.state.v 0xF 0
    let acc ← drawRows bus cpu.state.i start_x start_y n 0 (cpu.state.frame_buffer, 0)
    let v2 ← idxSet v1 0xF acc.2
    let waiting2 :=
      if cpu.quirks.quirks_draw_not_waiting_for_vblank then cpu.state.waiting_for_vblank
      else true
    .ok ({ cpu with state :=
           { cpu.state with v := v2, frame_buffer := acc.1,
                            waiting_for_vblank := waiting2 } }, bus)
  | .SkipIfKey x => do
    let vx ← idxGet cpu.state.v x
    match InputButton.tryFromU8 vx with
    | none => .error .rustPanic
    | some button =>
      if cpu.state.keypad_state.getStateForButton button = .Pressed then
        .ok ({ cpu with state := { cpu.state with pc := wrap16 (cpu.state.pc + 2) } }, bus)
      else
        .ok (cpu, bus)
  | .SkipIfNotKey x => do
    let vx ← idxGet cpu.state.v x
    match InputButton.tryFromU8 vx with
    | none => .error .rustPanic
    | some button =>
      if cpu.state.keypad_state.getStateForButton button = .Released then
        .ok ({ cpu with state := { cpu.state with pc := wrap16 (cpu.state.pc + 2) } }, bus)
      else
        .ok (cpu, bus)
  | .LoadVDT x => do
    let dt ← busReadU8 bus DT_TIMER
    let v2 ← idxSet cpu.state.v x dt
    .ok ({ cpu with state := { cpu.state with v := v2 } }, bus)
  | .WaitAndLoadKeypress x =>
    .ok ({ cpu with state := { cpu.state with waiting_for_key := some x } }, bus)
  | .LoadDTV x => do
    let vx ← idxGet cpu.state.v x
    let bus2 ← busWriteU8 bus DT_TIMER vx
    .ok (cpu, bus2)
  | .LoadSTV x => do
    let vx ← idxGet cpu.state.v x
    let bus2 ← busWriteU8 bus ST_TIMER vx
    .ok (cpu, bus2)
  | .AddIV x => do
    let vx ← idxGet cpu.state.v x
    .ok ({ cpu with state := { cpu.state with i := wrap16 (cpu.state.i + vx) } }, bus)
  | .LoadFontV x =>
    .ok ({ cpu with state := { cpu.state with i := FONT_BASE + x * 5 } }, bus)
  | .StoreBCDV x => do
    let vx ← idxGet cpu.state.v x
    let hundreds := (vx / 100) % 10
    let tens := (vx / 10) % 10
    let ones := vx % 10
    let bus1 ← busWriteU8 bus cpu.state.i hundreds
    let bus2 ← busWriteU8 bus1 (wrap16 (cpu.state.i + 1)) tens
    let bus3 ← busWriteU8 bus2 (wrap16 (cpu.state.i + 2)) ones
    .ok (cpu, bus3)
  | .StoreAllV x => do
    let bus2 ← storeAllLoop cpu.state.v cpu.state.i (x + 1) 0 bus
    let i2 := loadstoreIUpdate cpu.quirks cpu.state.i x
    .ok ({ cpu with state := { cpu.state with i := i2 } }, bus2)
  | .LoadAllV x => do
    let v2 ← loadAllLoop bus cpu.state.i (x + 1) 0 cpu.state.v
    let i2 := loadstoreIUpdate cpu.quirks cpu.state.i x
    .ok ({ cpu with state := { cpu.state with v := v2, i := i2 } }, bus)
  | .Unknown _ => .error (.emulator .UnknownOpcode)

/-- One iteration of `Cpu::handle_input` (src cpu.rs lines 137-153): feed the
event to the keypad state; if `waiting_for_key` is set and the event is a
released keyboard key mapping to a hex button, store the button value in
`V[x]` and clear the wait.  The stored index `x` always came from an opcode
nibble, so the `v[x]` write is in bounds whenever `v` has its 16 entries. -/
def applyInputEvent (s : CpuState) (ev : InputEvent) : CpuState :=
  let s := { s with keypad_state := s.keypad_state.parseInputEvent ev }
  match s.waiting_for_key with
  | some x =>
    match ev with
    | .keyboard key .Released =>
      match InputButton.tryFromKey key with
      | some button => { s with v := s.v.set x button, waiting_for_key := none }
      | none => s
    | _ => s
  | none => s

/-- `Cpu::handle_input`: drain the input channel in enqueue order. -/
def handleInput (cpu : Cpu) : Cpu :=
  { cpu with state := cpu.input_queue.foldl applyInputEvent cpu.state, input_queue := [] }

/-- `impl Steppable for Cpu` (src cpu.rs lines 178-209).  `clock` is the
backend clock (`backend.get_current_clock()`) in femtoseconds; the returned
Nat is the `Duration` handed back to the scheduler, also in femtoseconds.
The VBlank epilogue divides the clock by `Duration::from_nanos(1e9/60)`
(femtos `Duration / Duration` is a floor division), takes the next boundary,
and returns the remaining delta via `checked_sub(..).unwrap()`. -/
def stepCpu (cpu : Cpu) (bus : Bus) (clock : Nat) (randomByte : Nat) :
    Except EmuFail (Nat × Cpu × Bus) := do
  let cpu := handleInput cpu
  let (cpu, bus) ←
    if cpu.state.paused = false ∧ cpu.state.waiting_for_key = none then do
      let opcode ← busReadU16be bus cpu.state.pc
      let cpu := { cpu with state := { cpu.state with pc := wrap16 (cpu.state.pc + 2) } }
      executeInst (Instruction.decode opcode) cpu bus randomByte
    else
      .ok (cpu, bus)
  if cpu.quirks.quirks_draw_not_waiting_for_vblank = false
      ∧ cpu.state.waiting_for_vblank = true then
    let last_vblank_idx := clock / VBLANK_PERIOD_FS
    let next_vblank := durationFromNanos ((last_vblank_idx + 1) * VBLANK_CLOCK_SPEED_NS)
    if next_vblank < clock then
      .error .rustPanic
    else
      .ok (next_vblank - clock,
           { cpu with state := { cpu.state with waiting_for_vblank := false } }, bus)
  else
    .ok (durationFromNanos CLOCK_SPEED_NS, cpu, bus)

/-- Rust index read succeeds below the length, yielding the element. -/
theorem idxGet_ok {l : List Nat} {i : Nat} (h : i < l.length) :
    idxGet l i = .ok (l.getD i 0) := by
  unfold idxGet
  cases h2 : l.get? i with
  | none =>
    have := List.get?_eq_none.mp h2
    omega
  | some a =>
    have h3 : l.getD i 0 = a := by
      rw [List.getD_eq_get?, h2]
      rfl
    rw [h3]

/-- Rust index write succeeds below the length. -/
theorem idxSet_ok {l : List Nat} {i : Nat} (a : Nat) (h : i < l.length) :
    idxSet l i a = .ok (l.set i a) := by
  unfold idxSet
  rw [if_pos h]

theorem except_bind_ok {ε α β : Type} (a : α) (f : α → Except ε β) :
    (Except.ok a : Except ε α) >>= f = f a := rfl

theorem get?_set_self {l : List Nat} {i : Nat} (a : Nat) (h : i < l.length) :
    (l.set i a).get? i = some a :=
  List.get?_set_eq_of_lt a h

theorem getD_set_self {l : List Nat} {i : Nat} (a : Nat) (h : i < l.length) :
    (l.set i a).getD i 0 = a := by
  rw [List.getD_eq_get?, get?_set_self a h]
  rfl

/-- `ShiftRight` under the shift quirk: shift `v[x]` itself. -/
theorem shiftRight_eq_quirk (cpu : Cpu) (bus : Bus) (rnd x y : Nat)
    (hq : cpu.quirks.quirks_shift_takes_x_instead_of_y = true)
    (hx : x < cpu.state.v.length) (h15 : 15 < cpu.state.v.length) :
    executeInst (.ShiftRight x y) cpu bus rnd =
      .ok ({ cpu with state := { cpu.state with v :=
        ((cpu.state.v.set x (cpu.state.v.getD x 0 >>> 1)).set 15
          (cpu.state.v.getD x 0 &&& 1)) } }, bus) := by
  unfold executeInst
  rw [hq]
  simp only [if_true, except_bind_ok]
  rw [idxGet_ok hx, except_bind_ok, idxSet_ok _ hx, except_bind_ok,
      idxSet_ok _ (by simp only [List.length_set]; omega), except_bind_ok]

/-- `ShiftRight` without the shift quirk: copy `v[y]` first. -/
theorem shiftRight_eq_noquirk (cpu : Cpu) (bus : Bus) (rnd x y : Nat)
    (hq : cpu.quirks.quirks_shift_takes_x_instead_of_y = false)
    (hx : x < cpu.state.v.length) (hy : y < cpu.state.v.length)
    (h15 : 15 < cpu.state.v.length) :
    executeInst (.ShiftRight x y) cpu bus rnd =
      .ok ({ cpu with state := { cpu.state with v :=
        (((cpu.state.v.set x (cpu.state.v.getD y 0)).set x (cpu.state.v.getD y 0 >>> 1)).set 15
          (cpu.state.v.getD y 0 &&& 1)) } }, bus) := by
  unfold executeInst
  rw [hq]
  simp only [Bool.false_eq_true, if_false]
  rw [idxGet_ok hy, except_bind_ok, idxSet_ok _ hx, except_bind_ok,
      idxGet_ok (show x < (cpu.state.v.set x (cpu.state.v.getD y 0)).length by
        simp only [List.length_set]; omega),
      except_bind_ok, getD_set_self _ hx,
      idxSet_ok _ (by simp only [List.length_set]; omega), except_bind_ok,
      idxSet_ok _ (by simp only [List.length_set]; omega), except_bind_ok]

/-- `ShiftLeft` under the shift quirk. -/
theorem shiftLeft_eq_quirk (cpu : Cpu) (bus : Bus) (rnd x y : Nat)
    (hq : cpu.quirks.quirks_shift_takes_x_instead_of_y = true)
    (hx : x < cpu.state.v.length) (h15 : 15 < cpu.state.v.length) :
    executeInst (.ShiftLeft x y) cpu bus rnd =
      .ok ({ cpu with state := { cpu.state with v :=
        ((cpu.state.v.set x (wrap8 (cpu.state.v.getD x 0 <<< 1))).set 15
          ((cpu.state.v.getD x 0 &&& 0b10000000) >>> 7)) } }, bus) := by
  unfold executeInst
  rw [hq]
  simp only [if_true, except_bind_ok]
  rw [idxGet_ok hx, except_bind_ok, idxSet_ok _ hx, except_bind_ok,
      idxSet_ok _ (by simp only [List.length_set]; omega), except_bind_ok]

/-- `ShiftLeft` without the shift quirk. -/
theorem shiftLeft_eq_noquirk (cpu : Cpu) (bus : Bus) (rnd x y : Nat)
    (hq : cpu.quirks.quirks_shift_takes_x_instead_of_y = false)
    (hx : x < cpu.state.v.length) (hy : y < cpu.state.v.length)
    (h15 : 15 < cpu.state.v.length) :
    executeInst (.ShiftLeft x y) cpu bus rnd =
      .ok ({ cpu with state := { cpu.state with v :=
        (((cpu.state.v.set x (cpu.state.v.getD y 0)).set x
            (wrap8 (cpu.state.v.getD y 0 <<< 1))).set 15
          ((cpu.state.v.getD y 0 &&& 0b10000000) >>> 7)) } }, bus) := by
  unfold executeInst
  rw [hq]
  simp only [Bool.false_eq_true, if_false]
  rw [idxGet_ok hy, except_bind_ok, idxSet_ok _ hx, except_bind_ok,
      idxGet_ok (show x < (cpu.state.v.set x (cpu.state.v.getD y 0)).length by
        simp only [List.length_set]; omega),
      except_bind_ok, getD_set_self _ hx,
      idxSet_ok _ (by simp only [List.length_set]; omega), except_bind_ok,
      idxSet_ok _ (by simp only [List.length_set]; omega), except_bind_ok]

/-- For byte values, masking the high bit and shifting down is division by 128. -/
theorem and128_shr7 : ∀ s, s < 256 → (s &&& 128) >>> 7 = s / 128 := by decide

theorem getD_lt_of_forall {l : List Nat} {i : Nat} (h : i < l.length)
    (hb : ∀ a ∈ l, a < 256) : l.getD i 0 < 256 := by
  have h2 : l.getD i 0 = l.get ⟨i, h⟩ := by
    rw [List.getD_eq_get?, List.get?_eq_get h]
    rfl
  rw [h2]
  exact hb _ (l.get_mem _ _)

/-- Register `i` of the CPU after a successful execution (none on failure). -/
def vAfter (r : Except EmuFail (Cpu × Bus)) (i : Nat) : Option Nat :=
  match r with
  | .ok p => p.1.state.v.get? i
  | .error _ => none

/-- Program counter after a successful execution (none on failure). -/
def pcAfter (r : Except EmuFail (Cpu × Bus)) : Option Nat :=
  match r with
  | .ok p => some p.1.state.pc
  | .error _ => none

/-- Index register I after a successful execution (none on failure). -/
def iAfter (r : Except EmuFail (Cpu × Bus)) : Option Nat :=
  match r with
  | .ok p => some p.1.state.i
  | .error _ => none

/-- Unpack a successful result, with a default for the error case. -/
def getOkD {α : Type} (d : α) (r : Except EmuFail α) : α :=
  match r with
  | .ok a => a
  | .error _ => d

/-- A CPU in the quirk-example state of the spec: V[1] = 0x80, V[2] = 0x01. -/
def shiftCpu (platform : Platform) : Cpu :=
  { Cpu.new platform with state :=
    { CpuState.new with v := [0x00, 0x80, 0x01] ++ List.replicate 13 0 } }

/-- A Chip8-profile CPU with V[0] = 5 (for the unquirked BNNN path). -/
def jumpCpuC8 : Cpu :=
  { Cpu.new .Chip8 with state :=
    { CpuState.new with v := 0x05 :: List.replicate 15 0 } }

/-- A CPU with the out-of-range keypad value V[0] = 0x10. -/
def keyCpu : Cpu :=
  { Cpu.new .Chip8 with state :=
    { CpuState.new with v := 0x10 :: List.replicate 15 0 } }

/-- C1 (code bug): opcode B123 decodes to JumpV0 0x123 and the SUPER-CHIP
profile enables `quirks_jump_uses_x`, but `Instruction::execute` computes the
register index as `NNN & 0xF00` (here 0x100) without the `>> 8`, so the read
`v[0x100]` panics instead of setting PC to `(V[1] + 0x123) mod 2^16`.  With
the quirk disabled the claimed `PC = (V[0] + NNN) mod 2^16` does hold
(last conjunct: V[0] = 5 gives PC = 0x128). -/
theorem claim_C1 :
    Instruction.decode 0xB123 = .JumpV0 0x123
    ∧ (CpuQuirks.fromPlatform .SuperChip).quirks_jump_uses_x = true
    ∧ executeInst (.JumpV0 0x123) (Cpu.new .SuperChip) [] 0 = .error .rustPanic
    ∧ pcAfter (executeInst (.JumpV0 0x123) jumpCpuC8 [] 0) = some 0x128 :=
  ⟨rfl, rfl, rfl, rfl⟩

/-- C2 (code bug): EX9E/EXA1 with V[X] = 0x10 > 0xF panic: the source calls
`cpu.state.v[x].try_into().unwrap()` and `TryFrom<u8> for InputButton` is
`Err(())` above 0xF, so the step neither returns an emulator fault nor clamps,
contradicting the spec's no-panic requirement. -/
theorem claim_C2 :
    Instruction.decode 0xE09E = .SkipIfKey 0
    ∧ Instruction.decode 0xE0A1 = .SkipIfNotKey 0
    ∧ InputButton.tryFromU8 0x10 = none
    ∧ executeInst (.SkipIfKey 0) keyCpu [] 0 = .error .rustPanic
    ∧ executeInst (.SkipIfNotKey 0) keyCpu [] 0 = .error .rustPanic :=
  ⟨rfl, rfl, rfl, rfl, rfl⟩

/-- C7: after 8XY6 (SHR) or 8XYE (SHL), V[F] equals the bit shifted out of the
shifted value, which is copied from V[Y] when `quirks_shift_takes_x` is false
and is V[X] itself when it is true; concretely, with V[1]=0x80 and V[2]=0x01,
opcode 812E gives V[1]=0x02, V[F]=0 under CHIP-8 and V[1]=0x00, V[F]=1 under
SUPER-CHIP. -/
theorem claim_C7 :
    (∀ (cpu : Cpu) (bus : Bus) (rnd x y : Nat) (c2 : Cpu) (b2 : Bus),
        x < 16 → y < 16 → cpu.state.v.length = 16 →
        executeInst (.ShiftRight x y) cpu bus rnd = .ok (c2, b2) →
        c2.state.v.get? 0xF =
          some ((if cpu.quirks.quirks_shift_takes_x_instead_of_y then
                   cpu.state.v.getD x 0
                 else cpu.state.v.getD y 0) % 2))
    ∧ (∀ (cpu : Cpu) (bus : Bus) (rnd x y : Nat) (c2 : Cpu) (b2 : Bus),
        x < 16 → y < 16 → cpu.state.v.length = 16 →
        (∀ a ∈ cpu.state.v, a < 256) →
        executeInst (.ShiftLeft x y) cpu bus rnd = .ok (c2, b2) →
        c2.state.v.get? 0xF =
          some ((if cpu.quirks.quirks_shift_takes_x_instead_of_y then
                   cpu.state.v.getD x 0
                 else cpu.state.v.getD y 0) / 128))
    ∧ Instruction.decode 0x812E = .ShiftLeft 1 2
    ∧ vAfter (executeInst (.ShiftLeft 1 2) (shiftCpu .Chip8) [] 0) 1 = some 0x02
    ∧ vAfter (executeInst (.ShiftLeft 1 2) (shiftCpu .Chip8) [] 0) 0xF = some 0
    ∧ vAfter (executeInst (.ShiftLeft 1 2) (shiftCpu .SuperChip) [] 0) 1 = some 0x00
    ∧ vAfter (executeInst (.ShiftLeft 1 2) (shiftCpu .SuperChip) [] 0) 0xF = some 1 := by
  refine ⟨?_, ?_, rfl, rfl, rfl, rfl, rfl⟩
  · intro cpu bus rnd x y c2 b2 hx hy hlen hexec
    have hx' : x < cpu.state.v.length := by omega
    have hy' : y < cpu.state.v.length := by omega
    have h15 : 15 < cpu.state.v.length := by omega
    by_cases hq : cpu.quirks.quirks_shift_takes_x_instead_of_y
    · rw [shiftRight_eq_quirk cpu bus rnd x y hq hx' h15] at hexec
      simp only [Except.ok.injEq, Prod.mk.injEq] at hexec
      obtain ⟨hc, _⟩ := hexec
      subst hc
      simp only [hq, if_true]
      rw [get?_set_self _ (by simp only [List.length_set]; omega), Nat.and_one_is_mod]
    · rw [shiftRight_eq_noquirk cpu bus rnd x y (by simpa using hq) hx' hy' h15] at hexec
      simp only [Except.ok.injEq, Prod.mk.injEq] at hexec
      obtain ⟨hc, _⟩ := hexec
      subst hc
      simp only [hq, Bool.false_eq_true, if_false]
      rw [get?_set_self _ (by simp only [List.length_set]; omega), Nat.and_one_is_mod]
  · intro cpu bus rnd x y c2 b2 hx hy hlen hbytes hexec
    have hx' : x < cpu.state.v.length := by omega
    have hy' : y < cpu.state.v.length := by omega
    have h15 : 15 < cpu.state.v.length := by omega
    by_cases hq : cpu.quirks.quirks_shift_takes_x_instead_of_y
    · rw [shiftLeft_eq_quirk cpu bus rnd x y hq hx' h15] at hexec
      simp only [Except.ok.injEq, Prod.mk.injEq] at hexec
      obtain ⟨hc, _⟩ := hexec
      subst hc
      simp only [hq, if_true]
      rw [get?_set_self _ (by simp only [List.length_set]; omega),
          and128_shr7 _ (getD_lt_of_forall hx' hbytes)]
    · rw [shiftLeft_eq_noquirk cpu bus rnd x y (by simpa using hq) hx' hy' h15] at hexec
      simp only [Except.ok.injEq, Prod.mk.injEq] at hexec
      obtain ⟨hc, _⟩ := hexec
      subst hc
      simp only [hq, Bool.false_eq_true, if_false]
      rw [get?_set_self _ (by simp only [List.length_set]; omega),
          and128_shr7 _ (getD_lt_of_forall hy' hbytes)]

/-- Witness for C7: the quantified SHR/SHL parts applied at the spec's own
example state. -/
theorem claim_C7_witness :
    (getOkD (Cpu.new .Chip8, ([] : Bus))
      (executeInst (.ShiftRight 1 2) (shiftCpu .Chip8) [] 0)).1.state.v.get? 0xF = some 1
    ∧ (getOkD (Cpu.new .Chip8, ([] : Bus))
      (executeInst (.ShiftLeft 1 2) (shiftCpu .SuperChip) [] 0)).1.state.v.get? 0xF = some 1 := by
  constructor
  · exact claim_C7.1 (shiftCpu .Chip8) [] 0 1 2 _ _ (by decide) (by decide) rfl rfl
  · exact claim_C7.2.1 (shiftCpu .SuperChip) [] 0 1 2 _ _ (by decide) (by decide) rfl
      (by decide) rfl

/-- The mount geometry every bus built by `create_chip8_backend` has: the
interpreter block mounted at 0x0 with size 0x200 and the RAM block at 0x200
with size 0xDFF. -/
def Chip8BusShape (bus : Bus) : Prop :=
  ∃ m1 m2 : BusMount,
    bus = [m1, m2] ∧ m1.base = 0x0 ∧ m1.size = 0x200 ∧ m2.base = 0x200 ∧ m2.size = 0xDFF

theorem chip8Ram_size (rom_data : List Nat) : (chip8Ram rom_data).size = 0xDFF := by
  show (rom_data.take 0xDFF ++ List.replicate (0xDFF - rom_data.length) 0).length = 0xDFF
  simp only [List.length_append, List.length_take, List.length_replicate]
  omega

theorem except_bind_error {ε α β : Type} (e : ε) (f : α → Except ε β) :
    (Except.error e : Except ε α) >>= f = .error e := rfl

/-- On a CHIP-8-shaped bus, a successful one-byte write implies the target
address lies below 0xFFF, and the written bus keeps the shape. -/
theorem busWrite_ok_facts {bus bus2 : Bus} {a : Nat} {buf : List Nat}
    (hs : Chip8BusShape bus) (hlen : buf.length = 1)
    (hw : busWrite bus a buf = .ok bus2) :
    a < 0xFFF ∧ Chip8BusShape bus2 := by
  obtain ⟨m1, m2, rfl, h1b, h1s, h2b, h2s⟩ := hs
  unfold busWrite getComponentAt at hw
  rw [hlen] at hw
  simp only [gt_iff_lt, Nat.zero_lt_one, if_true] at hw
  by_cases hc1 : (m1.containsAddr a && m1.containsAddr (a + 1 - 1)) = true
  · have ha : a < 0xFFF := by
      simp only [BusMount.containsAddr, Bool.and_eq_true, decide_eq_true_eq] at hc1
      omega
    refine ⟨ha, ?_⟩
    simp only [findMount, hc1, if_true, List.get?, except_bind_ok] at hw
    cases hbw : m1.block.write (a - m1.base) buf with
    | error e =>
      rw [hbw, except_bind_error] at hw
      exact Except.noConfusion hw
    | ok b2 =>
      rw [hbw, except_bind_ok] at hw
      simp only [Except.ok.injEq] at hw
      exact ⟨_, _, hw.symm, h1b, h1s, h2b, h2s⟩
  · by_cases hc2 : (m2.containsAddr a && m2.containsAddr (a + 1 - 1)) = true
    · have ha : a < 0xFFF := by
        simp only [BusMount.containsAddr, Bool.and_eq_true, decide_eq_true_eq] at hc2
        omega
      refine ⟨ha, ?_⟩
      rw [Bool.not_eq_true] at hc1
      simp only [findMount, hc1, hc2, Bool.false_eq_true, if_false, if_true,
        Option.map_some', List.get?, except_bind_ok] at hw
      cases hbw : m2.block.write (a - m2.base) buf with
      | error e =>
        rw [hbw, except_bind_error] at hw
        exact Except.noConfusion hw
      | ok b2 =>
        rw [hbw, except_bind_ok] at hw
        simp only [Except.ok.injEq] at hw
        exact ⟨_, _, hw.symm, h1b, h1s, h2b, h2s⟩
    · exfalso
      rw [Bool.not_eq_true] at hc1 hc2
      simp only [findMount, hc1, hc2, Bool.false_eq_true, if_false,
        Option.map_none', except_bind_error] at hw
      exact Except.noConfusion hw

/-- On a CHIP-8-shaped bus, a successful one-byte read implies the address is
below 0xFFF. -/
theorem busRead_ok_mapped {bus : Bus} {a : Nat} {bytes : List Nat}
    (hs : Chip8BusShape bus) (hr : busRead bus a 1 = .ok bytes) : a < 0xFFF := by
  obtain ⟨m1, m2, rfl, h1b, h1s, h2b, h2s⟩ := hs
  by_contra hge
  push_neg at hge
  have hc1 : (m1.containsAddr a && m1.containsAddr (a + 1 - 1)) = false := by
    rw [Bool.eq_false_iff]
    intro hcontra
    simp only [Bool.and_eq_true, BusMount.containsAddr, decide_eq_true_eq] at hcontra
    omega
  have hc2 : (m2.containsAddr a && m2.containsAddr (a + 1 - 1)) = false := by
    rw [Bool.eq_false_iff]
    intro hcontra
    simp only [Bool.and_eq_true, BusMount.containsAddr, decide_eq_true_eq] at hcontra
    omega
  unfold busRead getComponentAt at hr
  simp only [gt_iff_lt, Nat.zero_lt_one, if_true, findMount, hc1, hc2, Bool.false_eq_true,
    if_false, Option.map_none', except_bind_error] at hr
  exact Except.noConfusion hr

theorem busReadU8_ok_mapped {bus : Bus} {a val : Nat} (hs : Chip8BusShape bus)
    (hr : busReadU8 bus a = .ok val) : a < 0xFFF := by
  unfold busReadU8 at hr
  cases hb : busRead bus a 1 with
  | error e =>
    rw [hb, except_bind_error] at hr
    exact Except.noConfusion hr
  | ok bytes => exact busRead_ok_mapped hs hb

/-- A successful FX55 register-store loop keeps every touched address below
0xFFF on a CHIP-8-shaped bus. -/
theorem storeAllLoop_bound {v : List Nat} {i : Nat} :
    ∀ (count r : Nat) (bus bus2 : Bus), Chip8BusShape bus →
      storeAllLoop v i count r bus = .ok bus2 →
      ∀ k, r ≤ k → k < r + count → i + k < 0xFFF := by
  intro count
  induction count with
  | zero =>
    intro r bus bus2 _ _ k hk1 hk2
    omega
  | succ n ih =>
    intro r bus bus2 hs h k hk1 hk2
    unfold storeAllLoop at h
    cases hg : idxGet v r with
    | error e =>
      rw [hg, except_bind_error] at h
      exact Except.noConfusion h
    | ok vr =>
      rw [hg, except_bind_ok] at h
      cases hw : busWriteU8 bus (i + r) vr with
      | error e =>
        rw [hw, except_bind_error] at h
        exact Except.noConfusion h
      | ok busMid =>
        rw [hw, except_bind_ok] at h
        have hfacts := @busWrite_ok_facts bus busMid (i + r) [vr] hs rfl hw
        rcases Nat.eq_or_lt_of_le hk1 with rfl | hk3
        · exact hfacts.1
        · exact ih (r + 1) busMid bus2 hfacts.2 h k hk3 (by omega)

/-- A successful FX65 register-load loop keeps every touched address below
0xFFF on a CHIP-8-shaped bus. -/
theorem loadAllLoop_bound {bus : Bus} {i : Nat} (hs : Chip8BusShape bus) :
    ∀ (count r : Nat) (v v2 : List Nat),
      loadAllLoop bus i count r v = .ok v2 →
      ∀ k, r ≤ k → k < r + count → i + k < 0xFFF := by
  intro count
  induction count with
  | zero =>
    intro r v v2 _ k hk1 hk2
    omega
  | succ n ih =>
    intro r v v2 h k hk1 hk2
    unfold loadAllLoop at h
    cases hg : busReadU8 bus (i + r) with
    | error e =>
      rw [hg, except_bind_error] at h
      exact Except.noConfusion h
    | ok val =>
      rw [hg, except_bind_ok] at h
      cases hset : idxSet v r val with
      | error e =>
        rw [hset, except_bind_error] at h
        exact Except.noConfusion h
      | ok vMid =>
        rw [hset, except_bind_ok] at h
        rcases Nat.eq_or_lt_of_le hk1 with rfl | hk3
        · exact busReadU8_ok_mapped hs hg
        · exact ih (r + 1) vMid v2 h k hk3 (by omega)

/-- C6: after FX55 (STR) or FX65 (LDR) completes successfully on a bus with
the CHIP-8 backend's mount geometry, under the CHIP-8 quirk profile I has
advanced by exactly X+1 (the successful bus accesses force I + X < 0xFFF, so
the u16 wrap never engages), and under the SUPER-CHIP quirk profile I is
unchanged. -/
theorem claim_C6 :
    (∀ (cpu : Cpu) (bus : Bus) (rnd x : Nat) (c2 : Cpu) (b2 : Bus),
        Chip8BusShape bus → x < 16 →
        cpu.quirks = CpuQuirks.fromPlatform .Chip8 →
        executeInst (.StoreAllV x) cpu bus rnd = .ok (c2, b2) →
        c2.state.i = cpu.state.i + x + 1)
    ∧ (∀ (cpu : Cpu) (bus : Bus) (rnd x : Nat) (c2 : Cpu) (b2 : Bus),
        cpu.quirks = CpuQuirks.fromPlatform .SuperChip →
        executeInst (.StoreAllV x) cpu bus rnd = .ok (c2, b2) →
        c2.state.i = cpu.state.i)
    ∧ (∀ (cpu : Cpu) (bus : Bus) (rnd x : Nat) (c2 : Cpu) (b2 : Bus),
        Chip8BusShape bus → x < 16 →
        cpu.quirks = CpuQuirks.fromPlatform .Chip8 →
        executeInst (.LoadAllV x) cpu bus rnd = .ok (c2, b2) →
        c2.state.i = cpu.state.i + x + 1)
    ∧ (∀ (cpu : Cpu) (bus : Bus) (rnd x : Nat) (c2 : Cpu) (b2 : Bus),
        cpu.quirks = CpuQuirks.fromPlatform .SuperChip →
        executeInst (.LoadAllV x) cpu bus rnd = .ok (c2, b2) →
        c2.state.i = cpu.state.i) := by
  refine ⟨?_, ?_, ?_, ?_⟩
  · intro cpu bus rnd x c2 b2 hs hx hq hexec
    simp only [executeInst] at hexec
    cases hst : storeAllLoop cpu.state.v cpu.state.i (x + 1) 0 bus with
    | error e =>
      rw [hst, except_bind_error] at hexec
      exact Except.noConfusion hexec
    | ok busMid =>
      rw [hst, except_bind_ok] at hexec
      simp only [Except.ok.injEq, Prod.mk.injEq] at hexec
      obtain ⟨hc, _⟩ := hexec
      subst hc
      have hb := storeAllLoop_bound (x + 1) 0 bus busMid hs hst x (by omega) (by omega)
      show loadstoreIUpdate cpu.quirks cpu.state.i x = cpu.state.i + x + 1
      rw [hq]
      unfold loadstoreIUpdate wrap16
      simp only [CpuQuirks.fromPlatform, Bool.false_eq_true, if_false]
      omega
  · intro cpu bus rnd x c2 b2 hq hexec
    simp only [executeInst] at hexec
    cases hst : storeAllLoop cpu.state.v cpu.state.i (x + 1) 0 bus with
    | error e =>
      rw [hst, except_bind_error] at hexec
      exact Except.noConfusion hexec
    | ok busMid =>
      rw [hst, except_bind_ok] at hexec
      simp only [Except.ok.injEq, Prod.mk.injEq] at hexec
      obtain ⟨hc, _⟩ := hexec
      subst hc
      show loadstoreIUpdate cpu.quirks cpu.state.i x = cpu.state.i
      rw [hq]
      rfl
  · intro cpu bus rnd x c2 b2 hs hx hq hexec
    simp only [executeInst] at hexec
    cases hld : loadAllLoop bus cpu.state.i (x + 1) 0 cpu.state.v with
    | error e =>
      rw [hld, except_bind_error] at hexec
      exact Except.noConfusion hexec
    | ok vMid =>
      rw [hld, except_bind_ok] at hexec
      simp only [Except.ok.injEq, Prod.mk.injEq] at hexec
      obtain ⟨hc, _⟩ := hexec
      subst hc
      have hb := loadAllLoop_bound hs (x + 1) 0 cpu.state.v vMid hld x (by omega) (by omega)
      show loadstoreIUpdate cpu.quirks cpu.state.i x = cpu.state.i + x + 1
      rw [hq]
      unfold loadstoreIUpdate wrap16
      simp only [CpuQuirks.fromPlatform, Bool.false_eq_true, if_false]
      omega
  · intro cpu bus rnd x c2 b2 hq hexec
    simp only [executeInst] at hexec
    cases hld : loadAllLoop bus cpu.state.i (x + 1) 0 cpu.state.v with
    | error e =>
      rw [hld, except_bind_error] at hexec
      exact Except.noConfusion hexec
    | ok vMid =>
      rw [hld, except_bind_ok] at hexec
      simp only [Except.ok.injEq, Prod.mk.injEq] at hexec
      obtain ⟨hc, _⟩ := hexec
      subst hc
      show loadstoreIUpdate cpu.quirks cpu.state.i x = cpu.state.i
      rw [hq]
      rfl

/-- A CPU whose index register points at the start of RAM. -/
def ldstCpu (platform : Platform) : Cpu :=
  { Cpu.new platform with state := { CpuState.new with i := 0x200 } }

/-- A bus with the CHIP-8 mount geometry and small writable blocks, for
evaluating the FX55/FX65 witness concretely. -/
def c6Bus : Bus :=
  [⟨0x0, 0x200, CompName.memInterpreter, ⟨false, [0, 0, 0]⟩⟩,
   ⟨0x200, 0xDFF, CompName.memRam, ⟨false, [0, 0, 0]⟩⟩]

/-- Witness for C6: FX55 with X = 2 from I = 0x200 lands I at 0x203 under
CHIP-8 and FX65 leaves I at 0x200 under SUPER-CHIP. -/
theorem claim_C6_witness :
    (getOkD (Cpu.new .Chip8, ([] : Bus))
      (executeInst (.StoreAllV 2) (ldstCpu .Chip8) c6Bus 0)).1.state.i = 0x203
    ∧ (getOkD (Cpu.new .Chip8, ([] : Bus))
      (executeInst (.LoadAllV 2) (ldstCpu .SuperChip) c6Bus 0)).1.state.i = 0x200 := by
  constructor
  · exact claim_C6.1 (ldstCpu .Chip8) c6Bus 0 2 _ _
      ⟨_, _, rfl, rfl, rfl, rfl, rfl⟩ (by decide) rfl rfl
  · exact claim_C6.2.2.2 (ldstCpu .SuperChip) c6Bus 0 2 _ _ rfl rfl

/-- The next 60 Hz boundary strictly after clock value `t` (femtoseconds). -/
def nextVBlankBoundary (t : Nat) : Nat :=
  (t / VBLANK_PERIOD_FS + 1) * VBLANK_PERIOD_FS

/-- A successful DRW leaves the quirks untouched and sets
`waiting_for_vblank` unless the draw quirk disables the wait. -/
theorem draw_ok_vblank {cpu : Cpu} {bus : Bus} {rnd vx vy n : Nat} {c2 : Cpu} {b2 : Bus}
    (h : executeInst (.Draw vx vy n) cpu bus rnd = .ok (c2, b2)) :
    c2.quirks = cpu.quirks ∧
    c2.state.waiting_for_vblank =
      (if cpu.quirks.quirks_draw_not_waiting_for_vblank then cpu.state.waiting_for_vblank
       else true) := by
  simp only [executeInst] at h
  cases h1 : idxGet cpu.state.v vx with
  | error e =>
    rw [h1, except_bind_error] at h
    exact Except.noConfusion h
  | ok sxv =>
  rw [h1, except_bind_ok] at h
  cases h2 : idxGet cpu.state.v vy with
  | error e =>
    rw [h2, except_bind_error] at h
    exact Except.noConfusion h
  | ok syv =>
  rw [h2, except_bind_ok] at h
  cases h3 : idxSet cpu.state.v 15 0 with
  | error e =>
    rw [h3, except_bind_error] at h
    exact Except.noConfusion h
  | ok v1 =>
  rw [h3, except_bind_ok] at h
  cases h4 : drawRows bus cpu.state.i (sxv % FRAME_WIDTH) (syv % FRAME_HEIGHT) n 0
      (cpu.state.frame_buffer, 0) with
  | error e =>
    rw [h4, except_bind_error] at h
    exact Except.noConfusion h
  | ok acc =>
  rw [h4, except_bind_ok] at h
  cases h5 : idxSet v1 15 acc.2 with
  | error e =>
    rw [h5, except_bind_error] at h
    exact Except.noConfusion h
  | ok v2 =>
  rw [h5, except_bind_ok] at h
  simp only [Except.ok.injEq, Prod.mk.injEq] at h
  obtain ⟨hc, _⟩ := h
  subst hc
  exact ⟨rfl, rfl⟩

theorem lt_nextVBlankBoundary (t : Nat) : t < nextVBlankBoundary t := by
  have hP : VBLANK_PERIOD_FS = 16666666000000 := rfl
  unfold nextVBlankBoundary
  rw [hP]
  omega

/-- C5: a CPU step that fetches and executes DRW at virtual time t under the
CHIP-8 profile (draw quirk off) returns a duration d with t + d equal to the
least multiple of the VBlank period (`Duration::from_nanos(10^9/60)`, i.e.
1/60 s in the emulator's granularity) strictly greater than t, and clears
`waiting_for_vblank`; under the SUPER-CHIP profile the same step returns the
normal `Duration::from_nanos(10^9/700)` (1/700 s) period. -/
theorem claim_C5 :
    (∀ (cpu : Cpu) (bus : Bus) (t rnd op vx vy n d : Nat) (c2 : Cpu) (b2 : Bus),
      cpu.input_queue = [] →
      cpu.state.paused = false →
      cpu.state.waiting_for_key = none →
      busReadU16be bus cpu.state.pc = .ok op →
      Instruction.decode op = .Draw vx vy n →
      cpu.quirks = CpuQuirks.fromPlatform .Chip8 →
      stepCpu cpu bus t rnd = .ok (d, c2, b2) →
      t + d = nextVBlankBoundary t
      ∧ c2.state.waiting_for_vblank = false
      ∧ t < t + d
      ∧ (t + d) % VBLANK_PERIOD_FS = 0
      ∧ (∀ m, m % VBLANK_PERIOD_FS = 0 → t < m → t + d ≤ m))
    ∧ (∀ (cpu : Cpu) (bus : Bus) (t rnd op vx vy n d : Nat) (c2 : Cpu) (b2 : Bus),
      cpu.input_queue = [] →
      cpu.state.paused = false →
      cpu.state.waiting_for_key = none →
      busReadU16be bus cpu.state.pc = .ok op →
      Instruction.decode op = .Draw vx vy n →
      cpu.quirks = CpuQuirks.fromPlatform .SuperChip →
      stepCpu cpu bus t rnd = .ok (d, c2, b2) →
      d = durationFromNanos CLOCK_SPEED_NS) := by
  constructor
  · intro cpu bus t rnd op vx vy n d c2 b2 hiq hp hw hfetch hdec hq hstep
    obtain ⟨⟨v, i, pc, sp, stk, paused, wfk, wfv, fb, kp⟩, qk, iq⟩ := cpu
    dsimp only at hiq hp hw hfetch hq
    subst hiq hp hw hq
    simp only [stepCpu, handleInput, List.foldl] at hstep
    rw [if_pos (by simp)] at hstep
    rw [hfetch, except_bind_ok, hdec] at hstep
    cases hex : executeInst (.Draw vx vy n)
        { state := { v := v, i := i, pc := wrap16 (pc + 2), sp := sp, stack := stk,
                     paused := false, waiting_for_key := none, waiting_for_vblank := wfv,
                     frame_buffer := fb, keypad_state := kp },
          quirks := CpuQuirks.fromPlatform .Chip8, input_queue := [] } bus rnd with
    | error e =>
      rw [hex, except_bind_error] at hstep
      exact Except.noConfusion hstep
    | ok pr =>
      rw [hex, except_bind_ok] at hstep
      obtain ⟨c3, b3⟩ := pr
      have hfacts := draw_ok_vblank hex
      dsimp only at hfacts hstep
      have hqd : c3.quirks.quirks_draw_not_waiting_for_vblank = false := by
        rw [hfacts.1]
        decide
      have hwt : c3.state.waiting_for_vblank = true := by
        rw [hfacts.2, if_neg (by decide)]
      rw [if_pos ⟨hqd, hwt⟩] at hstep
      have hnext : durationFromNanos ((t / VBLANK_PERIOD_FS + 1) * VBLANK_CLOCK_SPEED_NS)
          = nextVBlankBoundary t := by
        unfold nextVBlankBoundary VBLANK_PERIOD_FS durationFromNanos
        ring
      rw [hnext] at hstep
      have hlt := lt_nextVBlankBoundary t
      rw [if_neg (by omega)] at hstep
      simp only [Except.ok.injEq, Prod.mk.injEq] at hstep
      obtain ⟨hd, hc2, _⟩ := hstep
      subst hc2
      have hP : VBLANK_PERIOD_FS = 16666666000000 := rfl
      refine ⟨by omega, rfl, by omega, ?_, ?_⟩
      · have h2 : t + d = nextVBlankBoundary t := by omega
        have h3 : nextVBlankBoundary t = (t / 16666666000000 + 1) * 16666666000000 := rfl
        rw [h2, h3]
        exact Nat.mul_mod_left _ _
      · intro m hm hmt
        have h2 : t + d = nextVBlankBoundary t := by omega
        have h3 : nextVBlankBoundary t = (t / 16666666000000 + 1) * 16666666000000 := rfl
        rw [hP] at hm
        omega
  · intro cpu bus t rnd op vx vy n d c2 b2 hiq hp hw hfetch hdec hq hstep
    obtain ⟨⟨v, i, pc, sp, stk, paused, wfk, wfv, fb, kp⟩, qk, iq⟩ := cpu
    dsimp only at hiq hp hw hfetch hq
    subst hiq hp hw hq
    simp only [stepCpu, handleInput, List.foldl] at hstep
    rw [if_pos (by simp)] at hstep
    rw [hfetch, except_bind_ok, hdec] at hstep
    cases hex : executeInst (.Draw vx vy n)
        { state := { v := v, i := i, pc := wrap16 (pc + 2), sp := sp, stack := stk,
                     paused := false, waiting_for_key := none, waiting_for_vblank := wfv,
                     frame_buffer := fb, keypad_state := kp },
          quirks := CpuQuirks.fromPlatform .SuperChip, input_queue := [] } bus rnd with
    | error e =>
      rw [hex, except_bind_error] at hstep
      exact Except.noConfusion hstep
    | ok pr =>
      rw [hex, except_bind_ok] at hstep
      obtain ⟨c3, b3⟩ := pr
      have hfacts := draw_ok_vblank hex
      dsimp only at hfacts hstep
      have hqd : c3.quirks.quirks_draw_not_waiting_for_vblank = true := by
        rw [hfacts.1]
        decide
      rw [if_neg (by rw [hqd]; intro hcon; exact Bool.noConfusion hcon.1)] at hstep
      simp only [Except.ok.injEq, Prod.mk.injEq] at hstep
      omega

/-- A CHIP-8-shaped bus holding the opcode D002 at 0x200 and two sprite
bytes at 0x0, for evaluating the C5 witness concretely. -/
def c5Bus : Bus :=
  [⟨0x0, 0x200, CompName.memInterpreter, ⟨false, [0x00, 0x00, 0x00]⟩⟩,
   ⟨0x200, 0xDFF, CompName.memRam, ⟨false, [0xD0, 0x02, 0x00]⟩⟩]

/-- Witness for C5: stepping the reset CPU over `c5Bus` at clock 0. -/
theorem claim_C5_witness :
    (0 : Nat) + (getOkD (0, Cpu.new .Chip8, ([] : Bus))
        (stepCpu (Cpu.new .Chip8) c5Bus 0 0)).1 = nextVBlankBoundary 0
    ∧ (getOkD (0, Cpu.new .Chip8, ([] : Bus))
        (stepCpu (Cpu.new .Chip8) c5Bus 0 0)).2.1.state.waiting_for_vblank = false
    ∧ (getOkD (0, Cpu.new .SuperChip, ([] : Bus))
        (stepCpu (Cpu.new .SuperChip) c5Bus 0 0)).1 = durationFromNanos CLOCK_SPEED_NS := by
  have h1 := claim_C5.1 (Cpu.new .Chip8) c5Bus 0 0 0xD002 0 0 2 _ _ _
    rfl rfl rfl rfl rfl rfl rfl
  have h2 := claim_C5.2 (Cpu.new .SuperChip) c5Bus 0 0 0xD002 0 0 2 _ _ _
    rfl rfl rfl rfl rfl rfl rfl
  exact ⟨h1.1, h1.2.1, h2⟩

/-- Per-column spec of the DRW inner loop: changed cells, collision flag
and flag monotonicity, all relative to the accumulator. -/
theorem drawCols_spec (pd sx rowBase : Nat) :
    ∀ (count x : Nat) (fb : Nat → Bool) (vf : Nat), count + x = 8 →
      (∀ j, (drawCols pd sx rowBase count x (fb, vf)).1 j ≠ fb j →
         ∃ c, x ≤ c ∧ c < 8 ∧ sx + c < 64 ∧ j = rowBase + sx + c)
      ∧ ((drawCols pd sx rowBase count x (fb, vf)).2 = 1 ↔
         (vf = 1 ∨ ∃ c, x ≤ c ∧ c < 8 ∧ sx + c < 64 ∧ bitAt pd c = true ∧
            fb (rowBase + sx + c) = true))
      ∧ ((drawCols pd sx rowBase count x (fb, vf)).2 = vf
         ∨ (drawCols pd sx rowBase count x (fb, vf)).2 = 1) := by
  intro count
  induction count with
  | zero =>
    intro x fb vf hcx
    refine ⟨?_, ?_, Or.inl rfl⟩
    · intro j hj
      exact absurd rfl hj
    · simp only [drawCols]
      constructor
      · intro h
        exact Or.inl h
      · rintro (h | ⟨c, hc1, hc2, _⟩)
        · exact h
        · omega
  | succ n ih =>
    intro x fb vf hcx
    by_cases hbrk : 64 ≤ sx + x
    · have heq : drawCols pd sx rowBase (n + 1) x (fb, vf) = (fb, vf) := by
        conv_lhs => rw [drawCols]
        rw [if_pos hbrk]
      rw [heq]
      refine ⟨?_, ?_, Or.inl rfl⟩
      · intro j hj
        exact absurd rfl hj
      · constructor
        · intro h
          exact Or.inl h
        · rintro (h | ⟨c, hc1, hc2, hc3, _⟩)
          · exact h
          · omega
    · have heq : drawCols pd sx rowBase (n + 1) x (fb, vf) =
          drawCols pd sx rowBase n (x + 1)
            ((fun j => if j = rowBase + sx + x
                then Bool.xor (bitAt pd x) (fb (rowBase + sx + x)) else fb j),
             (if bitAt pd x && fb (rowBase + sx + x) then 1 else vf)) := by
        conv_lhs => rw [drawCols]
        rw [if_neg hbrk]
      rw [heq]
      obtain ⟨iha, ihb, ihc⟩ := ih (x + 1)
        (fun j => if j = rowBase + sx + x
            then Bool.xor (bitAt pd x) (fb (rowBase + sx + x)) else fb j)
        (if bitAt pd x && fb (rowBase + sx + x) then 1 else vf)
        (by omega)
      refine ⟨?_, ?_, ?_⟩
      · intro j hj
        by_cases hj2 : (drawCols pd sx rowBase n (x + 1)
            ((fun j => if j = rowBase + sx + x
                then Bool.xor (bitAt pd x) (fb (rowBase + sx + x)) else fb j),
             (if bitAt pd x && fb (rowBase + sx + x) then 1 else vf))).1 j =
            (if j = rowBase + sx + x
              then Bool.xor (bitAt pd x) (fb (rowBase + sx + x)) else fb j)
        · rw [hj2] at hj
          by_cases hj3 : j = rowBase + sx + x
          · exact ⟨x, le_refl x, by omega, by omega, hj3⟩
          · rw [if_neg hj3] at hj
            exact absurd rfl hj
        · obtain ⟨c, hc1, hc2, hc3, hc4⟩ := iha j hj2
          exact ⟨c, by omega, hc2, hc3, hc4⟩
      · rw [ihb]
        constructor
        · rintro (hv | ⟨c, hc1, hc2, hc3, hc4, hc5⟩)
          · by_cases hcol : (bitAt pd x && fb (rowBase + sx + x)) = true
            · rw [Bool.and_eq_true] at hcol
              exact Or.inr ⟨x, le_refl x, by omega, by omega, hcol.1, hcol.2⟩
            · rw [if_neg hcol] at hv
              exact Or.inl hv
          · rw [if_neg (by omega : ¬(rowBase + sx + c = rowBase + sx + x))] at hc5
            exact Or.inr ⟨c, by omega, hc2, hc3, hc4, hc5⟩
        · rintro (hv | ⟨c, hc1, hc2, hc3, hc4, hc5⟩)
          · left
            by_cases hcol : (bitAt pd x && fb (rowBase + sx + x)) = true
            · rw [if_pos hcol]
            · rw [if_neg hcol]
              exact hv
          · by_cases hcx2 : c = x
            · subst hcx2
              left
              rw [if_pos (by rw [hc4, hc5]; rfl)]
            · right
              refine ⟨c, by omega, hc2, hc3, hc4, ?_⟩
              rw [if_neg (by omega : ¬(rowBase + sx + c = rowBase + sx + x))]
              exact hc5
      · rcases ihc with h | h
        · rw [h]
          by_cases hcol : (bitAt pd x && fb (rowBase + sx + x)) = true
          · rw [if_pos hcol]
            right
            rfl
          · rw [if_neg hcol]
            left
            rfl
        · exact Or.inr h

theorem cell_ne_of_row_ne {a b off1 off2 : Nat} (h1 : off1 < 64) (h2 : off2 < 64)
    (hne : a ≠ b) : a * 64 + off1 ≠ b * 64 + off2 := by
  intro hcon
  omega

/-- Per-row spec of the DRW row loop: changed cells lie in in-bounds sprite
positions (rows with `sy + r >= 32` skipped, columns with `sx + c >= 64` cut
off), the collision flag accumulates exactly the drawn-bit-over-lit-pixel
events, and the flag only ever moves from the accumulator value to 1. -/
theorem drawRows_spec (bus : Bus) (i sx sy : Nat) :
    ∀ (count y : Nat) (fb : Nat → Bool) (vf : Nat) (out : (Nat → Bool) × Nat),
      drawRows bus i sx sy count y (fb, vf) = .ok out →
      (∀ j, out.1 j ≠ fb j →
         ∃ r, y ≤ r ∧ r < y + count ∧ sy + r < 32 ∧
           ∃ c, c < 8 ∧ sx + c < 64 ∧ j = (sy + r) * 64 + (sx + c))
      ∧ (out.2 = 1 ↔ (vf = 1 ∨
          ∃ r, y ≤ r ∧ r < y + count ∧ sy + r < 32 ∧
            ∃ pd, busReadU8 bus (i + r) = .ok pd ∧
              ∃ c, c < 8 ∧ sx + c < 64 ∧ bitAt pd c = true ∧
                fb ((sy + r) * 64 + (sx + c)) = true))
      ∧ (out.2 = vf ∨ out.2 = 1) := by
  intro count
  induction count with
  | zero =>
    intro y fb vf out h
    simp only [drawRows, Except.ok.injEq] at h
    subst h
    refine ⟨?_, ?_, Or.inl rfl⟩
    · intro j hj
      exact absurd rfl hj
    · constructor
      · intro hv
        exact Or.inl hv
      · rintro (hv | ⟨r, hr1, hr2, _⟩)
        · exact hv
        · omega
  | succ n ih =>
    intro y fb vf out h
    rw [drawRows] at h
    by_cases hskip : 32 ≤ sy + y
    · rw [if_pos hskip] at h
      obtain ⟨ra, rb, rc⟩ := ih (y + 1) fb vf out h
      refine ⟨?_, ?_, rc⟩
      · intro j hj
        obtain ⟨r, hr1, hr2, hr3, hc⟩ := ra j hj
        exact ⟨r, by omega, by omega, hr3, hc⟩
      · rw [rb]
        constructor
        · rintro (hv | ⟨r, hr1, hr2, hr3, hrest⟩)
          · exact Or.inl hv
          · exact Or.inr ⟨r, by omega, by omega, hr3, hrest⟩
        · rintro (hv | ⟨r, hr1, hr2, hr3, hrest⟩)
          · exact Or.inl hv
          · have hry : r ≠ y := by
              intro hcon
              omega
            exact Or.inr ⟨r, by omega, by omega, hr3, hrest⟩
    · rw [if_neg hskip] at h
      cases hrd : busReadU8 bus (i + y) with
      | error e =>
        rw [hrd, except_bind_error] at h
        exact absurd h Except.noConfusion
      | ok pd =>
        rw [hrd, except_bind_ok] at h
        obtain ⟨ca, cb, cc⟩ := drawCols_spec pd sx ((sy + y) * 64) 8 0 fb vf rfl
        obtain ⟨ra, rb, rc⟩ := ih (y + 1)
          (drawCols pd sx ((sy + y) * 64) 8 0 (fb, vf)).1
          (drawCols pd sx ((sy + y) * 64) 8 0 (fb, vf)).2 out h
        have hpres : ∀ r c, y + 1 ≤ r → c < 8 → sx + c < 64 →
            (drawCols pd sx ((sy + y) * 64) 8 0 (fb, vf)).1 ((sy + r) * 64 + (sx + c))
              = fb ((sy + r) * 64 + (sx + c)) := by
          intro r c hr hc hsc
          by_contra hne
          obtain ⟨c2, _, hc2, hsc2, hj⟩ := ca _ hne
          have : (sy + r) * 64 + (sx + c) ≠ (sy + y) * 64 + (sx + c2) := by
            apply cell_ne_of_row_ne (by omega) (by omega)
            omega
          rw [show (sy + y) * 64 + sx + c2 = (sy + y) * 64 + (sx + c2) by omega] at hj
          exact this hj
        refine ⟨?_, ?_, ?_⟩
        · intro j hj
          by_cases hj2 : out.1 j = (drawCols pd sx ((sy + y) * 64) 8 0 (fb, vf)).1 j
          · rw [hj2] at hj
            obtain ⟨c, _, hc2, hc3, hj4⟩ := ca j hj
            exact ⟨y, le_refl y, by omega, by omega, c, hc2, hc3, by omega⟩
          · obtain ⟨r, hr1, hr2, hr3, c, hc1, hc2, hj4⟩ := ra j hj2
            exact ⟨r, by omega, by omega, hr3, c, hc1, hc2, hj4⟩
        · rw [rb]
          constructor
          · rintro (hv | ⟨r, hr1, hr2, hr3, pd2, hrd2, c, hc1, hc2, hc3, hc4⟩)
            · rw [cb] at hv
              rcases hv with hv | ⟨c, _, hc2, hc3, hc4, hc5⟩
              · exact Or.inl hv
              · exact Or.inr ⟨y, le_refl y, by omega, by omega, pd, hrd, c, hc2, hc3, hc4,
                  by rw [show (sy + y) * 64 + (sx + c) = (sy + y) * 64 + sx + c by omega]
                     exact hc5⟩
            · rw [hpres r c hr1 hc1 hc2] at hc4
              exact Or.inr ⟨r, by omega, by omega, hr3, pd2, hrd2, c, hc1, hc2, hc3, hc4⟩
          · rintro (hv | ⟨r, hr1, hr2, hr3, pd2, hrd2, c, hc1, hc2, hc3, hc4⟩)
            · left
              rw [cb]
              exact Or.inl hv
            · by_cases hry : r = y
              · subst hry
                rw [hrd] at hrd2
                have hpd : pd2 = pd := by
                  exact (Except.ok.inj hrd2).symm
                subst hpd
                left
                rw [cb]
                right
                exact ⟨c, by omega, hc1, hc2, hc3,
                  by rw [show (sy + r) * 64 + sx + c = (sy + r) * 64 + (sx + c) by omega]
                     exact hc4⟩
              · right
                refine ⟨r, by omega, by omega, hr3, pd2, hrd2, c, hc1, hc2, hc3, ?_⟩
                rw [hpres r c (by omega) hc1 hc2]
                exact hc4
        · rcases rc with hout | hout
          · rw [hout]
            exact cc
          · exact Or.inr hout

/-- C8: every frame-buffer cell a successful DRW writes lies inside the 64x32
grid (no wrap past either edge: rows with sy+r >= 32 are skipped and columns
with sx+c >= 64 are not drawn), and afterwards V[F] = 1 exactly when some
drawn sprite bit was 1 over an already-lit pixel, and V[F] = 0 otherwise. -/
theorem claim_C8 :
    ∀ (cpu : Cpu) (bus : Bus) (rnd vx vy n : Nat) (c2 : Cpu) (b2 : Bus),
      vx < 16 → vy < 16 → cpu.state.v.length = 16 →
      executeInst (.Draw vx vy n) cpu bus rnd = .ok (c2, b2) →
      (∀ j, c2.state.frame_buffer j ≠ cpu.state.frame_buffer j →
         (∃ r, r < n ∧ cpu.state.v.getD vy 0 % 32 + r < 32 ∧
            ∃ c, c < 8 ∧ cpu.state.v.getD vx 0 % 64 + c < 64 ∧
              j = (cpu.state.v.getD vy 0 % 32 + r) * 64
                  + (cpu.state.v.getD vx 0 % 64 + c))
         ∧ j < 64 * 32)
      ∧ (c2.state.v.get? 0xF = some 1 ↔
          ∃ r, r < n ∧ cpu.state.v.getD vy 0 % 32 + r < 32 ∧
            ∃ pd, busReadU8 bus (cpu.state.i + r) = .ok pd ∧
              ∃ c, c < 8 ∧ cpu.state.v.getD vx 0 % 64 + c < 64 ∧ bitAt pd c = true ∧
                cpu.state.frame_buffer ((cpu.state.v.getD vy 0 % 32 + r) * 64
                  + (cpu.state.v.getD vx 0 % 64 + c)) = true)
      ∧ (c2.state.v.get? 0xF = some 0 ∨ c2.state.v.get? 0xF = some 1) := by
  intro cpu bus rnd vx vy n c2 b2 hx hy hlen hexec
  have hx' : vx < cpu.state.v.length := by omega
  have hy' : vy < cpu.state.v.length := by omega
  have h15 : 15 < cpu.state.v.length := by omega
  simp only [executeInst, FRAME_WIDTH, FRAME_HEIGHT] at hexec
  rw [idxGet_ok hx', except_bind_ok, idxGet_ok hy', except_bind_ok,
      idxSet_ok _ h15, except_bind_ok] at hexec
  cases hdr : drawRows bus cpu.state.i (cpu.state.v.getD vx 0 % 64)
      (cpu.state.v.getD vy 0 % 32) n 0 (cpu.state.frame_buffer, 0) with
  | error e =>
    rw [hdr, except_bind_error] at hexec
    exact absurd hexec Except.noConfusion
  | ok acc =>
    rw [hdr, except_bind_ok,
        idxSet_ok _ (by simp only [List.length_set]; omega), except_bind_ok] at hexec
    simp only [Except.ok.injEq, Prod.mk.injEq] at hexec
    obtain ⟨hc, _⟩ := hexec
    subst hc
    obtain ⟨ra, rb, rc⟩ := drawRows_spec bus cpu.state.i (cpu.state.v.getD vx 0 % 64)
      (cpu.state.v.getD vy 0 % 32) n 0 cpu.state.frame_buffer 0 acc hdr
    have hvf : ((cpu.state.v.set 15 0).set 15 acc.2).get? 15 = some acc.2 :=
      get?_set_self _ (by simp only [List.length_set]; omega)
    refine ⟨?_, ?_, ?_⟩
    · intro j hj
      obtain ⟨r, hr1, hr2, hr3, c, hc1, hc2, hj4⟩ := ra j hj
      refine ⟨⟨r, by omega, hr3, c, hc1, hc2, hj4⟩, by omega⟩
    · rw [hvf]
      simp only [Option.some.injEq]
      rw [rb]
      constructor
      · rintro (hv | ⟨r, hr1, hr2, hr3, rest⟩)
        · exact absurd hv (by omega)
        · exact ⟨r, by omega, hr3, rest⟩
      · rintro ⟨r, hr1, hr2, rest⟩
        exact Or.inr ⟨r, by omega, by omega, hr2, rest⟩
    · rw [hvf]
      simp only [Option.some.injEq]
      rcases rc with h | h
      · exact Or.inl h
      · exact Or.inr h

/-- A CPU whose frame buffer has exactly pixel 0 lit. -/
def c8Cpu : Cpu :=
  { Cpu.new .Chip8 with state :=
    { CpuState.new with frame_buffer := fun j => decide (j = 0) } }

/-- A one-mount bus holding the single sprite byte 0x80 at address 0. -/
def c8Bus : Bus :=
  [⟨0x0, 0x200, CompName.memInterpreter, ⟨false, [0x80]⟩⟩]

/-- Witness for C8: drawing the 1-row sprite 0x80 at (0,0) over a lit pixel 0
reports a collision in V[F]. -/
theorem claim_C8_witness :
    (getOkD (Cpu.new .Chip8, ([] : Bus))
      (executeInst (.Draw 0 0 1) c8Cpu c8Bus 0)).1.state.v.get? 0xF = some 1 := by
  have h := claim_C8 c8Cpu c8Bus 0 0 0 1 _ _ (by decide) (by decide) rfl rfl
  refine h.2.1.mpr ?_
  exact ⟨0, by decide, by decide, 0x80, rfl, 0, by decide, by decide, by decide, by decide⟩

/-- src/core/src/backend/mod.rs: the scheduler state of `Backend`, generic
over the component identity type `C` and the shared mutable state `σ` (the
bus plus all component-internal state reachable during `step`).  `queue`
models the `BinaryHeap<SchedulerEvent>` as a list of (clock_cycle, component)
pairs; `clock` is the backend clock in femtoseconds. -/
structure Sched (C σ : Type) where
  clock : Nat
  queue : List (Nat × C)
  shared : σ

/-- `BinaryHeap::pop` through the flipped `Ord`: remove an event of minimal
clock_cycle.  Among equal keys the heap's choice is unspecified; this model
takes the first minimal element in list order, and the proved bounds do not
depend on the tie order. -/
def popMin {C : Type} : List (Nat × C) → Option ((Nat × C) × List (Nat × C))
  | [] => none
  | e :: rest =>
    match popMin rest with
    | none => some (e, [])
    | some (m, rest2) => if e.1 ≤ m.1 then some (e, rest) else some (m, e :: rest2)

/-- `Backend::step` (src backend/mod.rs lines 65-84): pop the earliest event
(`unwrap` panics on an empty queue), advance `clock` to its timestamp, run the
component's step on the shared state, and re-queue the event: at
`clock + returned duration` on success (`checked_add(..).unwrap()` cannot
overflow in the Nat model), or unchanged (same timestamp) on error, returning
the error to the caller. -/
def schedStep {C σ : Type} (stepf : C → σ → Nat → Except EmuFail (Nat × σ))
    (st : Sched C σ) : Sched C σ × Option EmuFail :=
  match popMin st.queue with
  | none => (st, some .rustPanic)
  | some ((t, c), rest) =>
    match stepf c st.shared t with
    | .ok (dur, sh2) => (⟨t, (t + dur, c) :: rest, sh2⟩, none)
    | .error e => (⟨t, (t, c) :: rest, st.shared⟩, some e)

/-- `Backend::run_until`: loop `step()` while `clock < target`.  `fuel` bounds
the number of iterations so the function is total; `none` means the fuel ran
out while the loop would still continue.  An error from `step` is returned
immediately with the state reached so far, exactly as `?` does in the source. -/
def runUntil {C σ : Type} (stepf : C → σ → Nat → Except EmuFail (Nat × σ)) :
    Nat → Nat → Sched C σ → Option (Sched C σ × Option EmuFail)
  | fuel, target, st =>
    if st.clock < target then
      match fuel with
      | 0 => none
      | fuel + 1 =>
        match schedStep stepf st with
        | (st2, some e) => some (st2, some e)
        | (st2, none) => runUntil stepf fuel target st2
    else some (st, none)

/-- `Backend::run_for(duration)`: `run_until(clock + duration)`. -/
def runFor {C σ : Type} (stepf : C → σ → Nat → Except EmuFail (Nat × σ))
    (fuel d : Nat) (st : Sched C σ) : Option (Sched C σ × Option EmuFail) :=
  runUntil stepf fuel (st.clock + d) st

theorem popMin_none {C : Type} {l : List (Nat × C)} (h : popMin l = none) : l = [] := by
  cases l with
  | nil => rfl
  | cons e rest =>
    simp only [popMin] at h
    cases hp : popMin rest with
    | none =>
      rw [hp] at h
      exact Option.noConfusion h
    | some p =>
      obtain ⟨m0, r0⟩ := p
      rw [hp] at h
      dsimp only at h
      by_cases hle : e.1 ≤ m0.1
      · rw [if_pos hle] at h
        exact Option.noConfusion h
      · rw [if_neg hle] at h
        exact Option.noConfusion h

/-- `popMin` returns an element of the list, the rest stays within the list,
and the returned key is minimal over the whole list. -/
theorem popMin_spec {C : Type} :
    ∀ (l : List (Nat × C)) (m : Nat × C) (r : List (Nat × C)),
      popMin l = some (m, r) →
      m ∈ l ∧ (∀ x ∈ r, x ∈ l) ∧ (∀ x ∈ l, m.1 ≤ x.1) := by
  intro l
  induction l with
  | nil =>
    intro m r h
    exact Option.noConfusion h
  | cons e rest ih =>
    intro m r h
    simp only [popMin] at h
    cases hp : popMin rest with
    | none =>
      rw [hp] at h
      have hrest : rest = [] := popMin_none hp
      simp only [Option.some.injEq, Prod.mk.injEq] at h
      obtain ⟨hm, hr⟩ := h
      subst hm
      subst hr
      subst hrest
      refine ⟨List.mem_singleton.mpr rfl, ?_, ?_⟩
      · intro x hx
        exact absurd hx (List.not_mem_nil x)
      · intro x hx
        rw [List.mem_singleton] at hx
        subst hx
        exact le_refl _
    | some p =>
      obtain ⟨m0, r0⟩ := p
      obtain ⟨hmem0, hsub0, hmin0⟩ := ih m0 r0 hp
      rw [hp] at h
      dsimp only at h
      by_cases hle : e.1 ≤ m0.1
      · rw [if_pos hle] at h
        simp only [Option.some.injEq, Prod.mk.injEq] at h
        obtain ⟨hm, hr⟩ := h
        subst hm
        subst hr
        refine ⟨List.mem_cons_self e rest, ?_, ?_⟩
        · intro x hx
          exact List.mem_cons_of_mem e hx
        · intro x hx
          rcases List.mem_cons.mp hx with hx | hx
          · subst hx
            exact le_refl _
          · exact le_trans hle (hmin0 x hx)
      · rw [if_neg hle] at h
        simp only [Option.some.injEq, Prod.mk.injEq] at h
        obtain ⟨hm, hr⟩ := h
        subst hm
        subst hr
        refine ⟨List.mem_cons_of_mem e hmem0, ?_, ?_⟩
        · intro x hx
          rcases List.mem_cons.mp hx with hx | hx
          · rw [hx]
            exact List.mem_cons_self _ _
          · exact List.mem_cons_of_mem _ (hsub0 x hx)
        · intro x hx
          rcases List.mem_cons.mp hx with hx | hx
          · rw [hx]
            omega
          · exact hmin0 x hx

/-- The `run_until` loop, when it returns `Ok`, exits with
`target <= clock < target + P`, provided every queued event lies within
`[clock, clock + P]` and every successful component step returns a duration
at most `P`. -/
theorem runUntil_ok_bounds {C σ : Type}
    (stepf : C → σ → Nat → Except EmuFail (Nat × σ)) (P : Nat)
    (hstep : ∀ c sh t dur sh2, stepf c sh t = .ok (dur, sh2) → dur ≤ P) :
    ∀ (fuel target : Nat) (st st2 : Sched C σ),
      runUntil stepf fuel target st = some (st2, none) →
      (∀ e ∈ st.queue, st.clock ≤ e.1 ∧ e.1 ≤ st.clock + P) →
      st.clock < target + P →
      target ≤ st2.clock ∧ st2.clock < target + P := by
  intro fuel
  induction fuel with
  | zero =>
    intro target st st2 hrun hinv hentry
    rw [runUntil] at hrun
    by_cases hlt : st.clock < target
    · rw [if_pos hlt] at hrun
      exact Option.noConfusion hrun
    · rw [if_neg hlt] at hrun
      simp only [Option.some.injEq, Prod.mk.injEq] at hrun
      obtain ⟨hst, _⟩ := hrun
      subst hst
      omega
  | succ n ih =>
    intro target st st2 hrun hinv hentry
    rw [runUntil] at hrun
    by_cases hlt : st.clock < target
    · rw [if_pos hlt] at hrun
      cases hpop : popMin st.queue with
      | none =>
        simp only [schedStep, hpop] at hrun
        simp only [Option.some.injEq, Prod.mk.injEq] at hrun
        exact absurd hrun.2 Option.noConfusion
      | some p =>
        obtain ⟨⟨t, c⟩, rest⟩ := p
        obtain ⟨hmem, hsub, hmin⟩ := popMin_spec st.queue (t, c) rest hpop
        obtain ⟨htlo, hthi⟩ := hinv (t, c) hmem
        cases hsf : stepf c st.shared t with
        | error e =>
          simp only [schedStep, hpop, hsf] at hrun
          simp only [Option.some.injEq, Prod.mk.injEq] at hrun
          exact absurd hrun.2 Option.noConfusion
        | ok pr =>
          obtain ⟨dur, sh2⟩ := pr
          have hdur : dur ≤ P := hstep c st.shared t dur sh2 hsf
          simp only [schedStep, hpop, hsf] at hrun
          refine ih target ⟨t, (t + dur, c) :: rest, sh2⟩ st2 hrun ?_ (by dsimp only; omega)
          intro e he
          rcases List.mem_cons.mp he with he | he
          · subst he
            dsimp only
            omega
          · obtain ⟨helo, hehi⟩ := hinv e (hsub e he)
            refine ⟨hmin e (hsub e he), ?_⟩
            dsimp only
            omega
    · rw [if_neg hlt] at hrun
      simp only [Option.some.injEq, Prod.mk.injEq] at hrun
      obtain ⟨hst, _⟩ := hrun
      subst hst
      omega

/-- A component whose step always fails (e.g. a CPU faulting on an unmapped
fetch), scheduled once at clock 0. -/
def failStep : Unit → Unit → Nat → Except EmuFail (Nat × Unit) :=
  fun _ _ _ => .error (.emulator .Misc)

def failSched : Sched Unit Unit := ⟨0, [(0, ())], ()⟩

/-- C4 counterexample: when a component's step errors, `run_for(d)` returns
that error immediately with the clock advanced only to the failing event's
timestamp — here the clock has advanced 0 < d = 5, so the claim's
"whether it returns Ok or an error" part is false. -/
theorem claim_C4_counterexample :
    (runFor failStep 10 5 failSched).map (fun p => (p.1.clock, p.2))
      = some (0, some (.emulator .Misc))
    ∧ failSched.clock = 0 ∧ (0 : Nat) < 5 :=
  ⟨rfl, rfl, by decide⟩

/-- C4 amended: when `run_for(d)` returns Ok, the clock has advanced by at
least `d` and by less than `d + P`, where `P` bounds every period a scheduled
component's step returns (P > 0); the precondition on the queue — every
pending event stamped within `[clock, clock + P]` — holds at construction
(all events at `Instant::START = clock`) and is preserved by every step.
When `run_for` returns an error, the clock may have advanced less than `d`
(see the counterexample). -/
theorem claim_C4 {C σ : Type} (stepf : C → σ → Nat → Except EmuFail (Nat × σ))
    (P fuel d : Nat) (st st2 : Sched C σ)
    (hP : 0 < P)
    (hstep : ∀ c sh t dur sh2, stepf c sh t = .ok (dur, sh2) → dur ≤ P)
    (hinv : ∀ e ∈ st.queue, st.clock ≤ e.1 ∧ e.1 ≤ st.clock + P)
    (hrun : runFor stepf fuel d st = some (st2, none)) :
    st.clock + d ≤ st2.clock ∧ st2.clock < st.clock + d + P := by
  have h := runUntil_ok_bounds stepf P hstep fuel (st.clock + d) st st2 hrun hinv (by omega)
  omega

/-- A component stepping every 3 time units, scheduled at clock 0. -/
def tickStep : Unit → Unit → Nat → Except EmuFail (Nat × Unit) :=
  fun _ _ _ => .ok (3, ())

def tickSched : Sched Unit Unit := ⟨0, [(0, ())], ()⟩

/-- Witness for C4: running the 3-unit ticker for 5 units lands the clock at
6, within [5, 5 + 3). -/
theorem claim_C4_witness :
    (0 : Nat) + 5 ≤ 6 ∧ (6 : Nat) < 0 + 5 + 3 := by
  have h := claim_C4 tickStep 3 10 5 tickSched ⟨6, [(9, ())], ()⟩ (by decide)
    (fun c sh t dur sh2 hh => by
      simp only [tickStep, Except.ok.injEq, Prod.mk.injEq] at hh
      omega)
    (by
      intro e he
      simp only [tickSched, List.mem_singleton] at he
      subst he
      exact ⟨by decide, by decide⟩)
    rfl
  exact h
